import Mathlib

/-!
# Request validation middleware (`middlewares/input_validation.middleware.go`)

A shallow embedding of the four functions of the middleware:

* `phoneValidation`        the custom `phone` rule (length guard plus a regular expression),
* `validate`               the translation of the rule engine's first violation into a message,
* `BindJSONCaseSensitive`  the reflective, case-sensitive decoder,
* `ValidationHandler`      the gin handler that chains the decoder and the translator.

Go strings are modelled by `String` (with `String.utf8ByteSize` for `len`), Go `error`
values by their message, and a panic by an explicit outcome.  The libraries the source
calls (`encoding/json`, `reflect`, `regexp`, `strings`, the validator engine, gin) are
either modelled after their documented behaviour or taken as parameters (`Lib`).
-/

namespace Middlewares

/-! ## Regular expressions (the fragment of Go's `regexp` syntax used by the source) -/

/-- Regular expressions over Unicode code points.  `none` (no string) and `eps`
(the empty string) only arise as derivatives. -/
inductive Regex where
  | none
  | eps
  | lit (c : Char)
  | range (lo hi : Char)
  | cat (r s : Regex)
  | alt (r s : Regex)
  | star (r : Regex)
  | plus (r : Regex)
  deriving DecidableEq

namespace Regex

/-- Whether the expression accepts the empty string. -/
def nullable : Regex → Bool
  | none => false
  | eps => true
  | lit _ => false
  | range _ _ => false
  | cat r s => nullable r && nullable s
  | alt r s => nullable r || nullable s
  | star _ => true
  | plus r => nullable r

/-- Brzozowski derivative: the expression for what may follow a first character `c`. -/
def deriv (c : Char) : Regex → Regex
  | none => none
  | eps => none
  | lit a => if a = c then eps else none
  | range lo hi => if lo ≤ c ∧ c ≤ hi then eps else none
  | cat r s => if nullable r then alt (cat (deriv c r) s) (deriv c s) else cat (deriv c r) s
  | alt r s => alt (deriv c r) (deriv c s)
  | star r => cat (deriv c r) (star r)
  | plus r => cat (deriv c r) (star r)

/-- Whether the whole input is in the language of the expression. -/
def fullMatch (r : Regex) : List Char → Bool
  | [] => nullable r
  | c :: cs => fullMatch (deriv c r) cs

/-- The language of an expression: `Matches r w` when the string `w` belongs to it. -/
inductive Matches : Regex → List Char → Prop
  | eps : Matches eps []
  | lit (c : Char) : Matches (lit c) [c]
  | range {lo hi c : Char} : lo ≤ c → c ≤ hi → Matches (range lo hi) [c]
  | cat {r s : Regex} {u v : List Char} : Matches r u → Matches s v → Matches (cat r s) (u ++ v)
  | altL {r s : Regex} {u : List Char} : Matches r u → Matches (alt r s) u
  | altR {r s : Regex} {u : List Char} : Matches s u → Matches (alt r s) u
  | starNil {r : Regex} : Matches (star r) []
  | starCons {r : Regex} {u v : List Char} :
      Matches r u → Matches (star r) v → Matches (star r) (u ++ v)
  | plus {r : Regex} {u v : List Char} :
      Matches r u → Matches (star r) v → Matches (plus r) (u ++ v)

end Regex

/-- The pattern of `phoneValidation`, written in a raw (backquoted) Go string:
`^(0|\\+62|062|62)[0-9]+$`.  In a raw string the two backslashes reach the regexp
parser unchanged, where `\\` is an escaped literal backslash and the `+` after it is
the one-or-more quantifier; the second alternative is therefore "one or more
backslashes, then 62".  The anchors `^` and `$` are accounted for in `MatchString`. -/
def phoneRegex : Regex :=
  .cat
    (.alt (.lit '0')
      (.alt (.cat (.plus (.lit '\\')) (.cat (.lit '6') (.lit '2')))
        (.alt (.cat (.lit '0') (.cat (.lit '6') (.lit '2')))
          (.cat (.lit '6') (.lit '2')))))
    (.plus (.range '0' '9'))

/-- `regexp.MatchString` for a pattern of the shape `^re$` (no flags): with both
anchors a match exists exactly when the entire input is in the language of `re`. -/
def MatchString (re : Regex) (s : String) : Bool :=
  re.fullMatch s.data

/-- The custom `phone` rule: `len` is the byte length of the field's string value. -/
def phoneValidation (phoneNumber : String) : Bool :=
  if phoneNumber.utf8ByteSize < 10 || phoneNumber.utf8ByteSize > 13 then false
  else MatchString phoneRegex phoneNumber

/-- Whether `s` is, in its entirety, one of the `codes` followed by one or more decimal
digits. -/
def prefixedDigits (codes : List String) (s : String) : Bool :=
  codes.any fun p =>
    p.data.isPrefixOf s.data &&
      !(s.data.drop p.length).isEmpty && (s.data.drop p.length).all Char.isDigit

/-- The phone rule in the words of the specification: length between 10 and 13 and
the whole string is an optional country code (`0`, `+62`, `062` or `62`; the empty
code stands for its absence) followed by one or more decimal digits. -/
def phoneSpec (s : String) : Bool :=
  decide (10 ≤ s.length) && decide (s.length ≤ 13) &&
    prefixedDigits ["", "0", "+62", "062", "62"] s

/-! ## JSON values and the request body -/

/-- A JSON value.  A number keeps its integer part and, as text, whatever fraction or
exponent follows it (empty for an integer literal); a string holds its decoded content;
an object lists its members in document order. -/
inductive JSON where
  | null
  | bool (b : Bool)
  | number (int : Int) (fracExp : String)
  | string (s : String)
  | array (items : List JSON)
  | object (members : List (String × JSON))

/-- The Go value `map[string]json.RawMessage`: the most recently stored entry for a key
comes first and is the one a lookup finds. -/
abbrev RawMap := List (String × JSON)

/-- Map assignment `m[k] = v`. -/
def RawMap.set (m : RawMap) (k : String) (v : JSON) : RawMap :=
  (k, v) :: m

/-- Map lookup `v, ok := m[k]`: comparison of keys is string equality. -/
def RawMap.get : RawMap → String → Option JSON
  | [], _ => none
  | (k, v) :: m, key => if k = key then some v else RawMap.get m key

/-- The request body as the JSON decoder sees it: either the stream does not start
with a JSON value (syntax error, truncated or empty input; `err` is the decoder's
message), or its first value is `v`. -/
inductive Body where
  | invalid (err : String)
  | json (v : JSON)

/-- The name `encoding/json` gives a JSON value in an `UnmarshalTypeError`. -/
def JSON.kind : JSON → String
  | .null => "null"
  | .bool _ => "bool"
  | .number _ _ => "number"
  | .string _ => "string"
  | .array _ => "array"
  | .object _ => "object"

/-- The call `c.ShouldBindJSON(&raw)` with `raw` an empty `map[string]json.RawMessage`:
gin decodes the first JSON value of the body with `encoding/json`.  An object stores
each member in order (a repeated key overwrites the earlier entry); `null` leaves the
map empty without error; any other value is a type error. -/
def ShouldBindJSON : Body → Except String RawMap
  | .invalid err => .error err
  | .json (.object members) => .ok (members.foldl (fun m kv => m.set kv.1 kv.2) [])
  | .json .null => .ok []
  | .json v =>
    .error ("json: cannot unmarshal " ++ v.kind ++ " into Go value of type map[string]json.RawMessage")

/-! ## Reflection: struct types and the values behind an `interface{}` -/

/-- A field of a struct type as `reflect` describes it: `PkgPath` is empty exactly for
exported fields, `jsonTag` is `field.Tag.Get("json")` (empty when the tag has no json
key). -/
structure StructField (T : Type) where
  Name : String
  PkgPath : String
  Typ : T
  jsonTag : String
  deriving DecidableEq

/-- What `reflect.TypeOf` can return for the schema: a struct type or any other type. -/
inductive RType (T : Type) where
  | struct (fields : List (StructField T))
  | nonStruct
  deriving DecidableEq

/-- The dynamic content of an `interface{}` argument, as far as the source inspects it:
the nil interface, a non-nil pointer to a struct (its type and the current field
values), a nil pointer of a pointer-to-struct type, or anything else (a non-pointer, or
a pointer to a non-struct). -/
inductive Obj (T V : Type) where
  | nilIface
  | ptrToStruct (typ : List (StructField T)) (val : List V)
  | nilPtrToStruct (typ : List (StructField T))
  | other
  deriving DecidableEq

/-- How a Go call ends: it returns an `error` (`none` is `nil`) or it panics. -/
inductive Exit where
  | returned (err : Option String)
  | panicked (msg : String)
  deriving DecidableEq

/-- One violation reported by the rule engine (`validator.FieldError`). -/
structure FieldError where
  Field : String
  Tag : String
  Param : String
  deriving DecidableEq

/-- A non-nil `error` returned by `validator.Struct`: the violation list
`validator.ValidationErrors`, or an error of another dynamic type
(`*validator.InvalidValidationError`). -/
inductive ValidatorError where
  | ValidationErrors (errs : List FieldError)
  | InvalidValidationError
  deriving DecidableEq

/-- The library functions the middleware calls, over field types `T` and field values
`V`: the zero value of a type, `json.Unmarshal(raw, &field)` (the new field value or
the error message), `strings.ToLower`, and the process-wide rule engine
`inputValidation.Struct` (`none` is a nil error). -/
structure Lib (T V : Type) where
  zeroValue : T → V
  json_Unmarshal : JSON → T → V → Except String V
  strings_ToLower : String → String
  inputValidation_Struct : Obj T V → Option ValidatorError

/-- Effects of the handler that other components observe: the call of the rule engine,
a line written with `log.Println`, the call of `utils.ErrorResponse`, `ctx.Set` and
`ctx.Next`. -/
inductive Event (T V : Type) where
  | validatorStruct (data : Obj T V)
  | logPrintln (line : String)
  | ErrorResponse (status : Nat) (msg : String)
  | ctxSet (key : String) (payload : Obj T V)
  | ctxNext
  deriving DecidableEq

/-- A finished run of the handler: its effects in order, and the panic if it ended in one. -/
structure Run (T V : Type) where
  events : List (Event T V)
  panicked : Option String
  deriving DecidableEq

/-- Modelled from the spec: `utils.ErrorResponse(ctx, status, msg)` belongs to the package
`utils` of this repository, which is not among the sources.  The specification makes it
the response-formatting collaborator that is handed the status class and the single
error string; the call is recorded as one event (its effect on the handler chain is
`Run.aborted`). -/
@[reducible]
def utils_ErrorResponse {T V : Type} (status : Nat) (msg : String) : Event T V :=
  .ErrorResponse status msg

/-! ## `validate` -/

/-- The error translator.  It calls the rule engine, converts a non-nil error to
`validator.ValidationErrors` with an unchecked type assertion, takes element 0 and
switches on its tag. -/
def validate {T V : Type} (L : Lib T V) (data : Obj T V) : List (Event T V) × Exit :=
  let err := L.inputValidation_Struct data
  ([Event.validatorStruct data],
    match err with
    | Option.none => Exit.returned Option.none
    | some ValidatorError.InvalidValidationError =>
      Exit.panicked "interface conversion: error is not validator.ValidationErrors"
    | some (ValidatorError.ValidationErrors []) =>
      Exit.panicked "runtime error: index out of range [0] with length 0"
    | some (ValidatorError.ValidationErrors (validationErr :: _)) =>
      let errMsg :=
        if validationErr.Tag = "email" then "Email format is invalid"
        else if validationErr.Tag = "min" then
          L.strings_ToLower validationErr.Field ++ " must be minimum " ++ validationErr.Param
            ++ " characters"
        else if validationErr.Tag = "max" then
          L.strings_ToLower validationErr.Field ++ " maximum allowed is " ++ validationErr.Param
            ++ " characters"
        else if validationErr.Tag = "required" then
          L.strings_ToLower validationErr.Field ++ " is required"
        else if validationErr.Tag = "phone" then "Phone number format is invalid"
        else "Invalid input for " ++ L.strings_ToLower validationErr.Field
      Exit.returned (some errMsg))

/-! ## `BindJSONCaseSensitive` -/

/-- How the field loop ends: all fields visited, an early `return err`, or a panic. -/
inductive Loop (V : Type) where
  | done (value : List V)
  | returned (err : String)
  | panicked (msg : String)
  deriving DecidableEq

/-- The loop `for i := 0; i < typ.NumField(); i++` over the fields not yet visited,
with `i` the index of the first of them and `value` the struct being filled.
`value.Field(i).Addr().Interface()` panics for an unexported field. -/
def bindLoop {T V : Type} (L : Lib T V) (raw : RawMap) :
    List (StructField T) → Nat → List V → Loop V
  | [], _, value => .done value
  | field :: rest, i, value =>
    if field.jsonTag = "" then bindLoop L raw rest (i + 1) value
    else
      match raw.get field.jsonTag with
      | Option.none => bindLoop L raw rest (i + 1) value
      | some rawValue =>
        if field.PkgPath ≠ "" then
          .panicked "reflect.Value.Interface: cannot return value obtained from unexported field or method"
        else
          match value.get? i with
          | Option.none => .panicked "reflect: Field index out of range"
          | some cur =>
            match L.json_Unmarshal rawValue field.Typ cur with
            | .error err => .returned err
            | .ok v => bindLoop L raw rest (i + 1) (value.set i v)

/-- The decoder.  The result pairs the state of the caller's object after the call with
the way the call ended.  `c` is the request body held by the gin context.  The final
`reflect.ValueOf(obj).Elem().Set(value)` panics when `obj` is a nil pointer. -/
def BindJSONCaseSensitive {T V : Type} (L : Lib T V) (c : Body) (obj : Obj T V) :
    Obj T V × Exit :=
  match obj with
  | .nilIface => (obj, .panicked "invalid memory address or nil pointer dereference")
  | .other => (obj, .returned (some "obj must be a pointer to a struct"))
  | .ptrToStruct typ _ =>
    match ShouldBindJSON c with
    | .error err => (obj, .returned (some err))
    | .ok raw =>
      match bindLoop L raw typ 0 (typ.map fun f => L.zeroValue f.Typ) with
      | .panicked msg => (obj, .panicked msg)
      | .returned err => (obj, .returned (some err))
      | .done value => (.ptrToStruct typ value, .returned Option.none)
  | .nilPtrToStruct typ =>
    match ShouldBindJSON c with
    | .error err => (obj, .returned (some err))
    | .ok raw =>
      match bindLoop L raw typ 0 (typ.map fun f => L.zeroValue f.Typ) with
      | .panicked msg => (obj, .panicked msg)
      | .returned err => (obj, .returned (some err))
      | .done _ => (obj, .panicked "reflect: call of reflect.Value.Set on zero Value")

/-! ## `ValidationHandler` -/

/-- The call `reflect.New(t).Interface()`: a pointer to a zero value of type `t`. -/
def reflect_New {T V : Type} (L : Lib T V) : RType T → Obj T V
  | .struct fields => .ptrToStruct fields (fields.map fun f => L.zeroValue f.Typ)
  | .nonStruct => .other

/-- The middleware returned by `ValidationHandler(schema)`, run on a request whose body
is `ctx`.  `schema` is `reflect.TypeOf(schema)`, `none` for a nil interface (on which
`reflect.New` panics).  `http.StatusBadRequest` is 400. -/
def ValidationHandler {T V : Type} (L : Lib T V) (schema : Option (RType T)) (ctx : Body) :
    Run T V :=
  match schema with
  | Option.none => ⟨[], some "reflect: New(nil)"⟩
  | some t =>
    match BindJSONCaseSensitive L ctx (reflect_New L t) with
    | (_, .panicked msg) => ⟨[], some msg⟩
    | (_, .returned (some err)) =>
      ⟨[.logPrintln ("Failed to bind JSON: " ++ err), utils_ErrorResponse 400 err], Option.none⟩
    | (payload, .returned Option.none) =>
      match validate L payload with
      | (evs, .panicked msg) => ⟨evs, some msg⟩
      | (evs, .returned (some err)) =>
        ⟨evs ++ [.logPrintln ("Validation error: " ++ err), utils_ErrorResponse 400 err],
          Option.none⟩
      | (evs, .returned Option.none) => ⟨evs ++ [.ctxSet "payload" payload, .ctxNext], Option.none⟩

/-- The handler rejected the request: it sent an error response. -/
def Run.rejectedWith {T V : Type} (r : Run T V) (msg : String) : Prop :=
  Event.ErrorResponse 400 msg ∈ r.events

/-- The handler called the rule engine. -/
def Run.engineInvoked {T V : Type} (r : Run T V) : Prop :=
  ∃ data, Event.validatorStruct data ∈ r.events

/-- The handler stored a payload in the context. -/
def Run.payloadStored {T V : Type} (r : Run T V) : Prop :=
  ∃ key payload, Event.ctxSet key payload ∈ r.events

/-- The handler passed control on with `ctx.Next()`. -/
def Run.nextRun {T V : Type} (r : Run T V) : Prop :=
  Event.ctxNext ∈ r.events

/-- Modelled from the spec: what `utils.ErrorResponse` (package `utils` of this
repository, not among the sources) does to the gin context.  The specification has a
rejection end the request's processing with the client-facing error ("a failed
validation simply ends the request's processing with a client-facing rejection"), so a
call of `utils.ErrorResponse` aborts the context: `aborted` holds of a run in which it
was called. -/
def Run.aborted {T V : Type} (r : Run T V) : Prop :=
  ∃ status msg, Event.ErrorResponse status msg ∈ r.events

/-- Whether gin runs the handlers that follow the middleware in the chain: the middleware
called `ctx.Next()` itself, or it returned normally with the context not aborted, in
which case gin's own loop over the chain goes on to the next handler. -/
def Run.nextHandlerRuns {T V : Type} (r : Run T V) : Prop :=
  r.nextRun ∨ (r.panicked = none ∧ ¬ r.aborted)

/-! ## A concrete library: scalar Go field types -/

/-- Scalar Go types of schema fields. -/
inductive GoType where
  | bool
  | int
  | string
  deriving DecidableEq

/-- Values of the scalar Go types. -/
inductive GoValue where
  | bool (b : Bool)
  | int (n : Int)
  | string (s : String)
  deriving DecidableEq

/-- Zero value of a scalar type. -/
def goZero : GoType → GoValue
  | .bool => .bool false
  | .int => .int 0
  | .string => .string ""

/-- The Go name of a scalar type. -/
def GoType.name : GoType → String
  | .bool => "bool"
  | .int => "int"
  | .string => "string"

/-- The function `json.Unmarshal` into a pointer to a scalar: `null` has no effect and
is not an error; a JSON boolean, integer literal within the 64-bit range, or string
sets a field of the matching type; everything else is an `UnmarshalTypeError` (its
message for a number quotes the literal, which is left out here). -/
def goUnmarshal (raw : JSON) (t : GoType) (cur : GoValue) : Except String GoValue :=
  match raw, t with
  | .null, _ => .ok cur
  | .bool b, .bool => .ok (.bool b)
  | .number n fracExp, .int =>
    if fracExp = "" ∧ -(2 : Int) ^ 63 ≤ n ∧ n < (2 : Int) ^ 63 then .ok (.int n)
    else .error "json: cannot unmarshal number into Go value of type int"
  | .string s, .string => .ok (.string s)
  | v, t => .error ("json: cannot unmarshal " ++ v.kind ++ " into Go value of type " ++ t.name)

/-- The JSON type the specification expects for a field of a scalar type. -/
def jsonTypeCompatible : JSON → GoType → Bool
  | .bool _, .bool => true
  | .number _ _, .int => true
  | .string _, .string => true
  | _, _ => false

/-- Lower-casing of the ASCII letters, on which it agrees with `strings.ToLower`. -/
def asciiToLower (s : String) : String :=
  ⟨s.data.map Char.toLower⟩

/-- A concrete library over the scalar types, for a given rule engine. -/
def goLib (engine : Obj GoType GoValue → Option ValidatorError) : Lib GoType GoValue where
  zeroValue := goZero
  json_Unmarshal := goUnmarshal
  strings_ToLower := asciiToLower
  inputValidation_Struct := engine

/-! ## The field loop as a function of the struct type -/

/-- Result of the loop body for one field. -/
inductive Step (V : Type) where
  | value (v : V)
  | returned (err : String)
  | panicked (msg : String)
  deriving DecidableEq

/-- The body of the field loop for one field of a freshly allocated (zero) struct: the
value the field holds afterwards, or the early exit. -/
def decodeField {T V : Type} (L : Lib T V) (raw : RawMap) (field : StructField T) : Step V :=
  if field.jsonTag = "" then .value (L.zeroValue field.Typ)
  else
    match raw.get field.jsonTag with
    | Option.none => .value (L.zeroValue field.Typ)
    | some rawValue =>
      if field.PkgPath ≠ "" then
        .panicked "reflect.Value.Interface: cannot return value obtained from unexported field or method"
      else
        match L.json_Unmarshal rawValue field.Typ (L.zeroValue field.Typ) with
        | .error err => .returned err
        | .ok v => .value v

/-- The fields of a fresh struct decoded one after the other, stopping at the first
early exit. -/
def decodeFields {T V : Type} (L : Lib T V) (raw : RawMap) : List (StructField T) → Loop V
  | [] => .done []
  | field :: rest =>
    match decodeField L raw field with
    | .returned err => .returned err
    | .panicked msg => .panicked msg
    | .value v =>
      match decodeFields L raw rest with
      | .done vs => .done (v :: vs)
      | .returned err => .returned err
      | .panicked msg => .panicked msg

/-- The JSON keys of a struct type: the non-empty json tags of its fields. -/
def jsonKeys {T : Type} (typ : List (StructField T)) : List String :=
  (typ.map fun f => f.jsonTag).filter fun k => k ≠ ""

/-! ## Example schemas -/

/-- The struct type of the specification's end-to-end examples:
`Name string` with json key `name` and `Email string` with json key `email`. -/
def userSchema : List (StructField GoType) :=
  [⟨"Name", "", .string, "name"⟩, ⟨"Email", "", .string, "email"⟩]

/-- A struct type with a numeric field: `Name string` (`name`) and `Age int` (`age`). -/
def memberSchema : List (StructField GoType) :=
  [⟨"Name", "", .string, "name"⟩, ⟨"Age", "", .int, "age"⟩]

/-- An example rule engine for `userSchema`, standing for the rules `required,min=3` on
`Name` and `required,email` on `Email`; violations are listed in field order. -/
def userEngine : Obj GoType GoValue → Option ValidatorError
  | .ptrToStruct _ [.string name, .string email] =>
    let errs : List FieldError :=
      (if name = "" then [⟨"Name", "required", ""⟩]
        else if name.length < 3 then [⟨"Name", "min", "3"⟩] else []) ++
      (if email = "" then [⟨"Email", "required", ""⟩]
        else if '@' ∉ email.data then [⟨"Email", "email", ""⟩] else [])
    if errs = [] then Option.none else some (.ValidationErrors errs)
  | _ => some .InvalidValidationError

/-- A struct type whose json tag carries an option: `Email string` tagged
`json:"email,omitempty"`. -/
def optionSchema : List (StructField GoType) :=
  [⟨"Email", "", .string, "email,omitempty"⟩]

/-- A struct type with an unexported field that carries a json tag: `name string` tagged
`json:"name"`, declared in package `middlewares`. -/
def hiddenSchema : List (StructField GoType) :=
  [⟨"name", "middlewares", .string, "name"⟩]

/-! ## The derivative matcher decides the language -/

namespace Regex

theorem nullable_of_matches_nil {r : Regex} {w : List Char} (h : Matches r w) :
    w = [] → nullable r = true := by
  induction h with
  | eps => intro _; rfl
  | lit c => intro hw; cases hw
  | range _ _ => intro hw; cases hw
  | cat _ _ ihu ihv =>
    intro hw
    obtain ⟨hu, hv⟩ := List.append_eq_nil.mp hw
    simp [nullable, ihu hu, ihv hv]
  | altL _ ih => intro hw; simp [nullable, ih hw]
  | altR _ ih => intro hw; simp [nullable, ih hw]
  | starNil => intro _; rfl
  | starCons _ _ _ _ => intro _; rfl
  | plus _ _ ihu _ =>
    intro hw
    obtain ⟨hu, _⟩ := List.append_eq_nil.mp hw
    simp [nullable, ihu hu]

theorem matches_nil_of_nullable : ∀ {r : Regex}, nullable r = true → Matches r []
  | none, h => by simp [nullable] at h
  | eps, _ => Matches.eps
  | lit _, h => by simp [nullable] at h
  | range _ _, h => by simp [nullable] at h
  | cat r s, h => by
    simp only [nullable, Bool.and_eq_true] at h
    exact Matches.cat (matches_nil_of_nullable h.1) (matches_nil_of_nullable h.2)
  | alt r s, h => by
    simp only [nullable, Bool.or_eq_true] at h
    rcases h with h | h
    · exact Matches.altL (matches_nil_of_nullable h)
    · exact Matches.altR (matches_nil_of_nullable h)
  | star _, _ => Matches.starNil
  | plus r, h => by
    simp only [nullable] at h
    exact Matches.plus (matches_nil_of_nullable h) Matches.starNil

theorem nullable_iff (r : Regex) : nullable r = true ↔ Matches r [] :=
  ⟨matches_nil_of_nullable, fun h => nullable_of_matches_nil h rfl⟩

theorem matches_deriv_of_matches_cons {r : Regex} {w : List Char} (h : Matches r w) :
    ∀ (c : Char) (t : List Char), w = c :: t → Matches (deriv c r) t := by
  induction h with
  | eps => intro c t hw; cases hw
  | lit a =>
    intro c t hw
    cases hw
    simpa [deriv] using Matches.eps
  | @range lo hi a hlo hhi =>
    intro c t hw
    cases hw
    simpa [deriv, hlo, hhi] using Matches.eps
  | @cat r s u v hu hv ihu ihv =>
    intro c t hw
    cases u with
    | nil =>
      have hn : nullable r = true := nullable_of_matches_nil hu rfl
      simp only [deriv, hn, if_true]
      exact Matches.altR (ihv c t hw)
    | cons a u =>
      simp only [List.cons_append, List.cons.injEq] at hw
      obtain ⟨rfl, rfl⟩ := hw
      have hc := Matches.cat (ihu a u rfl) hv
      by_cases hn : nullable r = true
      · simp only [deriv, hn, if_true]; exact Matches.altL hc
      · simp only [deriv, hn]; exact hc
  | altL _ ih => intro c t hw; exact Matches.altL (ih c t hw)
  | altR _ ih => intro c t hw; exact Matches.altR (ih c t hw)
  | starNil => intro c t hw; cases hw
  | @starCons r u v hu hv ihu ihv =>
    intro c t hw
    cases u with
    | nil => exact ihv c t hw
    | cons a u =>
      simp only [List.cons_append, List.cons.injEq] at hw
      obtain ⟨rfl, rfl⟩ := hw
      exact Matches.cat (ihu a u rfl) hv
  | @plus r u v hu hv ihu ihv =>
    intro c t hw
    cases u with
    | nil => exact ihv c t hw
    | cons a u =>
      simp only [List.cons_append, List.cons.injEq] at hw
      obtain ⟨rfl, rfl⟩ := hw
      exact Matches.cat (ihu a u rfl) hv

theorem matches_cons_of_matches_deriv (c : Char) :
    ∀ {r : Regex} {t : List Char}, Matches (deriv c r) t → Matches r (c :: t)
  | none, _, h => by cases h
  | eps, _, h => by cases h
  | lit a, t, h => by
    by_cases hac : a = c
    · subst hac
      simp only [deriv, if_true] at h
      cases h
      exact Matches.lit a
    · simp only [deriv, hac, if_false] at h
      cases h
  | range lo hi, t, h => by
    by_cases hc : lo ≤ c ∧ c ≤ hi
    · simp only [deriv, hc, and_self, if_true] at h
      cases h
      exact Matches.range hc.1 hc.2
    · simp only [deriv, hc, if_false] at h
      cases h
  | cat r s, t, h => by
    by_cases hn : nullable r = true
    · simp only [deriv, hn, if_true] at h
      cases h with
      | altL h =>
        cases h with
        | cat hu hv => exact Matches.cat (matches_cons_of_matches_deriv c hu) hv
      | altR h =>
        exact Matches.cat (matches_nil_of_nullable hn) (matches_cons_of_matches_deriv c h)
    · simp only [deriv, hn] at h
      cases h with
      | cat hu hv => exact Matches.cat (matches_cons_of_matches_deriv c hu) hv
  | alt r s, t, h => by
    simp only [deriv] at h
    cases h with
    | altL h => exact Matches.altL (matches_cons_of_matches_deriv c h)
    | altR h => exact Matches.altR (matches_cons_of_matches_deriv c h)
  | star r, t, h => by
    simp only [deriv] at h
    cases h with
    | cat hu hv => exact Matches.starCons (matches_cons_of_matches_deriv c hu) hv
  | plus r, t, h => by
    simp only [deriv] at h
    cases h with
    | cat hu hv => exact Matches.plus (matches_cons_of_matches_deriv c hu) hv

/-- The matcher is sound and complete for the language. -/
theorem fullMatch_iff : ∀ (w : List Char) (r : Regex), fullMatch r w = true ↔ Matches r w
  | [], r => by simpa [fullMatch] using nullable_iff r
  | c :: t, r => by
    rw [fullMatch, fullMatch_iff t (deriv c r)]
    exact ⟨matches_cons_of_matches_deriv c, fun h => matches_deriv_of_matches_cons h c t rfl⟩

end Regex

/-! ## The language of the phone pattern -/

namespace Regex

theorem matches_lit_iff {a : Char} {w : List Char} : Matches (lit a) w ↔ w = [a] :=
  ⟨fun h => by cases h; rfl, fun h => h ▸ Matches.lit a⟩

theorem matches_range_iff {lo hi : Char} {w : List Char} :
    Matches (range lo hi) w ↔ ∃ c, w = [c] ∧ lo ≤ c ∧ c ≤ hi :=
  ⟨fun h => by cases h with | range h1 h2 => exact ⟨_, rfl, h1, h2⟩,
    fun ⟨_, hw, h1, h2⟩ => hw ▸ Matches.range h1 h2⟩

theorem matches_cat_iff {r s : Regex} {w : List Char} :
    Matches (cat r s) w ↔ ∃ u v, w = u ++ v ∧ Matches r u ∧ Matches s v :=
  ⟨fun h => by cases h with | cat hu hv => exact ⟨_, _, rfl, hu, hv⟩,
    fun ⟨_, _, hw, hu, hv⟩ => hw ▸ Matches.cat hu hv⟩

theorem matches_alt_iff {r s : Regex} {w : List Char} :
    Matches (alt r s) w ↔ Matches r w ∨ Matches s w :=
  ⟨fun h => by
      cases h with
      | altL h => exact Or.inl h
      | altR h => exact Or.inr h,
    fun h => h.elim Matches.altL Matches.altR⟩

/-- Repetition of a one-character class: every character of the word is in the class. -/
theorem forall_mem_of_matches_star {r : Regex} {P : Char → Prop}
    (hr : ∀ u, Matches r u → ∃ c, u = [c] ∧ P c) {q : Regex} {w : List Char}
    (h : Matches q w) : q = star r → ∀ c ∈ w, P c := by
  induction h with
  | eps => intro hq; cases hq
  | lit _ => intro hq; cases hq
  | range _ _ => intro hq; cases hq
  | cat _ _ _ _ => intro hq; cases hq
  | altL _ _ => intro hq; cases hq
  | altR _ _ => intro hq; cases hq
  | starNil => intro _ c hc; cases hc
  | starCons hu _ _ ihv =>
    intro hq c hc
    cases hq
    obtain ⟨a, rfl, ha⟩ := hr _ hu
    rcases List.mem_append.mp hc with hc | hc
    · rw [List.mem_singleton.mp hc]; exact ha
    · exact ihv rfl c hc
  | plus _ _ _ _ => intro hq; cases hq

theorem matches_star_of_forall_mem {r : Regex} {P : Char → Prop}
    (hr : ∀ c, P c → Matches r [c]) : ∀ w : List Char, (∀ c ∈ w, P c) → Matches (star r) w
  | [], _ => Matches.starNil
  | a :: t, h =>
    Matches.starCons (u := [a]) (hr a (h a (List.mem_cons_self a t)))
      (matches_star_of_forall_mem hr t fun c hc => h c (List.mem_cons_of_mem a hc))

/-- One or more repetitions of a one-character class. -/
theorem matches_plus_class_iff {r : Regex} {P : Char → Prop}
    (hr : ∀ u, Matches r u ↔ ∃ c, u = [c] ∧ P c) {w : List Char} :
    Matches (plus r) w ↔ w ≠ [] ∧ ∀ c ∈ w, P c := by
  constructor
  · intro h
    cases h with
    | plus hu hv =>
      obtain ⟨a, rfl, ha⟩ := (hr _).mp hu
      refine ⟨by simp, fun c hc => ?_⟩
      rcases List.mem_append.mp hc with hc | hc
      · rw [List.mem_singleton.mp hc]; exact ha
      · exact forall_mem_of_matches_star (fun u hu => (hr u).mp hu) hv rfl c hc
  · rintro ⟨hne, hall⟩
    cases w with
    | nil => exact absurd rfl hne
    | cons a t =>
      exact Matches.plus (u := [a]) ((hr _).mpr ⟨a, rfl, hall a (List.mem_cons_self a t)⟩)
        (matches_star_of_forall_mem (fun c hc => (hr _).mpr ⟨c, rfl, hc⟩) t
          fun c hc => hall c (List.mem_cons_of_mem a hc))

end Regex

open Regex in
/-- The language of the phone pattern as coded: a zero, or one or more backslashes
followed by 62, or 062, or 62; then one or more decimal digits. -/
theorem matches_phoneRegex_iff (w : List Char) :
    Matches phoneRegex w ↔
      ∃ p d, w = p ++ d ∧
        (p = ['0'] ∨ (∃ b, b ≠ [] ∧ (∀ c ∈ b, c = '\\') ∧ p = b ++ ['6', '2']) ∨
          p = ['0', '6', '2'] ∨ p = ['6', '2']) ∧
        d ≠ [] ∧ ∀ c ∈ d, '0' ≤ c ∧ c ≤ '9' := by
  have hdig : ∀ d, Matches (plus (range '0' '9')) d ↔ d ≠ [] ∧ ∀ c ∈ d, '0' ≤ c ∧ c ≤ '9' :=
    fun d => matches_plus_class_iff (fun u => matches_range_iff)
  have hbs : ∀ b, Matches (plus (lit '\\')) b ↔ b ≠ [] ∧ ∀ c ∈ b, c = '\\' :=
    fun b => matches_plus_class_iff (P := fun c => c = '\\') (fun u => by
      rw [matches_lit_iff]
      exact ⟨fun h => ⟨_, h, rfl⟩, fun ⟨c, hu, hc⟩ => hc ▸ hu⟩)
  have h62 : ∀ u, Matches (cat (lit '6') (lit '2')) u ↔ u = ['6', '2'] := by
    intro u
    simp only [matches_cat_iff, matches_lit_iff]
    exact ⟨fun ⟨_, _, hu, h1, h2⟩ => by rw [hu, h1, h2]; rfl, fun h => ⟨_, _, h, rfl, rfl⟩⟩
  have h062 : ∀ u, Matches (cat (lit '0') (cat (lit '6') (lit '2'))) u ↔ u = ['0', '6', '2'] := by
    intro u
    rw [matches_cat_iff]
    simp only [h62, matches_lit_iff]
    exact ⟨fun ⟨_, _, hu, h1, h2⟩ => by rw [hu, h1, h2]; rfl, fun h => ⟨_, _, h, rfl, rfl⟩⟩
  unfold phoneRegex
  rw [matches_cat_iff]
  simp only [matches_alt_iff, h062, h62, hdig, matches_lit_iff]
  constructor
  · rintro ⟨p, d, hw, hp, hd⟩
    refine ⟨p, d, hw, ?_, hd⟩
    rcases hp with hp | hp | hp | hp
    · exact Or.inl hp
    · obtain ⟨b, t, hp, hb, ht⟩ := matches_cat_iff.mp hp
      exact Or.inr (Or.inl ⟨b, ((hbs b).mp hb).1, ((hbs b).mp hb).2, by rw [hp, (h62 t).mp ht]⟩)
    · exact Or.inr (Or.inr (Or.inl hp))
    · exact Or.inr (Or.inr (Or.inr hp))
  · rintro ⟨p, d, hw, hp, hd⟩
    refine ⟨p, d, hw, ?_, hd⟩
    rcases hp with hp | ⟨b, hb1, hb2, hp⟩ | hp | hp
    · exact Or.inl hp
    · exact Or.inr (Or.inl (matches_cat_iff.mpr ⟨b, _, hp, (hbs b).mpr ⟨hb1, hb2⟩, (h62 _).mpr rfl⟩))
    · exact Or.inr (Or.inr (Or.inl hp))
    · exact Or.inr (Or.inr (Or.inr hp))

theorem isDigit_iff_range (c : Char) : c.isDigit = true ↔ '0' ≤ c ∧ c ≤ '9' := by
  simp [Char.isDigit, Char.le_def, UInt32.le_def]

theorem utf8Size_of_isDigit {c : Char} (h : c.isDigit = true) : c.utf8Size = 1 := by
  simp only [Char.isDigit, Bool.and_eq_true, decide_eq_true_eq] at h
  have h57 : (57 : UInt32) ≤ 127 := by decide
  have h2 : c.val ≤ 127 := UInt32.le_trans h.2 h57
  simp [Char.utf8Size, h2]

/-- The byte length of a string of one-byte characters is its number of characters. -/
theorem utf8ByteSize_go_eq_length :
    ∀ cs : List Char, (∀ c ∈ cs, c.utf8Size = 1) → String.utf8ByteSize.go cs = cs.length
  | [], _ => rfl
  | a :: t, h => by
    rw [String.utf8ByteSize.go, utf8ByteSize_go_eq_length t fun c hc =>
      h c (List.mem_cons_of_mem a hc), h a (List.mem_cons_self a t), List.length_cons]

/-! ## The phone rule -/

theorem prefixedDigits_iff (codes : List String) (s : String) :
    prefixedDigits codes s = true ↔
      ∃ p ∈ codes, ∃ d, s.data = p.data ++ d ∧ d ≠ [] ∧ ∀ c ∈ d, c.isDigit = true := by
  simp only [prefixedDigits, List.any_eq_true, Bool.and_eq_true, Bool.not_eq_true',
    List.all_eq_true, List.isEmpty_eq_false, List.isPrefixOf_iff_prefix]
  constructor
  · rintro ⟨p, hp, ⟨hpre, hne⟩, hall⟩
    exact ⟨p, hp, s.data.drop p.length, (List.prefix_iff_eq_append.mp hpre).symm, hne, hall⟩
  · rintro ⟨p, hp, d, hs, hne, hall⟩
    have hdrop : s.data.drop p.length = d := by
      rw [hs]; exact List.drop_left p.data d
    refine ⟨p, hp, ⟨?_, ?_⟩, ?_⟩
    · rw [hs]; exact List.prefix_append _ _
    · rw [hdrop]; exact hne
    · rw [hdrop]; exact hall

theorem utf8ByteSize_eq_length_of_digits (s : String) (h : ∀ c ∈ s.data, c.isDigit = true) :
    s.utf8ByteSize = s.length := by
  cases s with
  | mk cs => exact utf8ByteSize_go_eq_length cs fun c hc => utf8Size_of_isDigit (h c hc)

theorem phoneValidation_eq_true_iff (s : String) :
    phoneValidation s = true ↔
      10 ≤ s.utf8ByteSize ∧ s.utf8ByteSize ≤ 13 ∧ Regex.Matches phoneRegex s.data := by
  unfold phoneValidation MatchString
  rw [← Regex.fullMatch_iff]
  by_cases h : s.utf8ByteSize < 10 || s.utf8ByteSize > 13
  · rw [if_pos h]
    simp only [Bool.or_eq_true, decide_eq_true_eq] at h
    constructor
    · intro hf; cases hf
    · rintro ⟨h1, h2, _⟩; omega
  · rw [if_neg h]
    simp only [Bool.or_eq_true, decide_eq_true_eq, not_or, not_lt] at h
    constructor
    · intro hm; exact ⟨h.1, by omega, hm⟩
    · rintro ⟨_, _, hm⟩; exact hm

/-- C1 (amended): for every string that begins neither with `+` nor with a backslash,
the phone rule accepts it if and only if its length is between 10 and 13 and it is, in
its entirety, one of the codes `0`, `062`, `62` (mandatory, not optional) followed by one
or more decimal digits. -/
theorem phoneValidation_plain_iff (s : String)
    (h : s.data.head? ≠ some '+' ∧ s.data.head? ≠ some '\\') :
    phoneValidation s = true ↔
      (10 ≤ s.length ∧ s.length ≤ 13 ∧ prefixedDigits ["0", "062", "62"] s = true) := by
  rw [phoneValidation_eq_true_iff, matches_phoneRegex_iff, prefixedDigits_iff]
  constructor
  · rintro ⟨h1, h2, p, d, hs, hp, hne, hd⟩
    have hd' : ∀ c ∈ d, c.isDigit = true := fun c hc => (isDigit_iff_range c).mpr (hd c hc)
    have key : ∀ q : String, q ∈ ["0", "062", "62"] → p = q.data →
        10 ≤ s.length ∧ s.length ≤ 13 ∧
          ∃ p ∈ ["0", "062", "62"], ∃ d, s.data = p.data ++ d ∧ d ≠ [] ∧
            ∀ c ∈ d, c.isDigit = true := by
      intro q hq hpq
      have hq' : ∀ c ∈ q.data, c.isDigit = true := by
        simp only [List.mem_cons, List.mem_singleton, List.not_mem_nil, or_false] at hq
        rcases hq with rfl | rfl | rfl <;> decide
      have hall : ∀ c ∈ s.data, c.isDigit = true := by
        intro c hc
        rw [hs, hpq] at hc
        rcases List.mem_append.mp hc with hc | hc
        · exact hq' c hc
        · exact hd' c hc
      rw [utf8ByteSize_eq_length_of_digits s hall] at h1 h2
      exact ⟨h1, h2, q, hq, d, by rw [hs, hpq], hne, hd'⟩
    rcases hp with hp | ⟨b, hb1, hb2, hp⟩ | hp | hp
    · exact key "0" (by simp) hp
    · exfalso
      apply h.2
      cases b with
      | nil => exact absurd rfl hb1
      | cons a t =>
        have ha : a = '\\' := hb2 a (List.mem_cons_self a t)
        rw [hs, hp, ha]
        rfl
    · exact key "062" (by simp) hp
    · exact key "62" (by simp) hp
  · rintro ⟨h1, h2, q, hq, d, hs, hne, hd⟩
    have hq' : ∀ c ∈ q.data, c.isDigit = true := by
      simp only [List.mem_cons, List.mem_singleton, List.not_mem_nil, or_false] at hq
      rcases hq with rfl | rfl | rfl <;> decide
    have hall : ∀ c ∈ s.data, c.isDigit = true := by
      intro c hc
      rw [hs] at hc
      rcases List.mem_append.mp hc with hc | hc
      · exact hq' c hc
      · exact hd c hc
    rw [utf8ByteSize_eq_length_of_digits s hall]
    refine ⟨h1, h2, q.data, d, hs, ?_, hne, fun c hc => (isDigit_iff_range c).mp (hd c hc)⟩
    simp only [List.mem_cons, List.mem_singleton, List.not_mem_nil, or_false] at hq
    rcases hq with rfl | rfl | rfl
    · exact Or.inl rfl
    · exact Or.inr (Or.inr (Or.inl rfl))
    · exact Or.inr (Or.inr (Or.inr rfl))

theorem phoneValidation_plain_iff_witness :
    ("0812345678".data.head? ≠ some '+' ∧ "0812345678".data.head? ≠ some '\\') ∧
      (phoneValidation "0812345678" = true ↔
        (10 ≤ "0812345678".length ∧ "0812345678".length ≤ 13 ∧
          prefixedDigits ["0", "062", "62"] "0812345678" = true)) :=
  ⟨by decide, phoneValidation_plain_iff "0812345678" (by decide)⟩

/-- C1 (as stated) fails: the ten digits `8123456789` carry no code, and
`+628123456789` carries the code `+62`; the specification accepts both, the phone rule
rejects both. -/
theorem phoneSpec_not_phoneValidation :
    (phoneSpec "8123456789" = true ∧ phoneValidation "8123456789" = false) ∧
      (phoneSpec "+628123456789" = true ∧ phoneValidation "+628123456789" = false) := by
  decide

/-! ## The error translator -/

/-- C2: `validate` returns no error when the rule engine reports no violations;
otherwise, for the first violation with field name `f`, rule name `r` and parameter
`p`, it returns exactly the message of the table: fixed texts for `email` and `phone`,
the lower-cased field name with the parameter for `min` and `max`, the lower-cased
field name for `required`, and the fallback text for every other rule name. -/
theorem validate_message {T V : Type} (L : Lib T V) (data : Obj T V) :
    (L.inputValidation_Struct data = none → (validate L data).2 = .returned none) ∧
    ∀ (f r p : String) (rest : List FieldError),
      L.inputValidation_Struct data = some (.ValidationErrors (⟨f, r, p⟩ :: rest)) →
      (r = "email" → (validate L data).2 = .returned (some "Email format is invalid")) ∧
      (r = "min" → (validate L data).2 =
        .returned (some (L.strings_ToLower f ++ " must be minimum " ++ p ++ " characters"))) ∧
      (r = "max" → (validate L data).2 =
        .returned (some (L.strings_ToLower f ++ " maximum allowed is " ++ p ++ " characters"))) ∧
      (r = "required" → (validate L data).2 =
        .returned (some (L.strings_ToLower f ++ " is required"))) ∧
      (r = "phone" → (validate L data).2 = .returned (some "Phone number format is invalid")) ∧
      (r ∉ ["email", "min", "max", "required", "phone"] → (validate L data).2 =
        .returned (some ("Invalid input for " ++ L.strings_ToLower f))) := by
  refine ⟨fun h => by simp [validate, h], fun f r p rest h => ?_⟩
  refine ⟨?_, ?_, ?_, ?_, ?_, ?_⟩
  · rintro rfl; simp [validate, h]
  · rintro rfl; simp [validate, h]
  · rintro rfl; simp [validate, h]
  · rintro rfl; simp [validate, h]
  · rintro rfl; simp [validate, h]
  · intro hr
    simp only [List.mem_cons, List.mem_singleton, List.not_mem_nil, or_false, not_or] at hr
    simp [validate, h, hr.1, hr.2.1, hr.2.2.1, hr.2.2.2.1, hr.2.2.2.2]

/-- C2 at a concrete input: a `min` violation on field `Password` with parameter `8`,
followed by a second violation. -/
theorem validate_message_witness :
    (validate (goLib fun _ => some (.ValidationErrors
        [⟨"Password", "min", "8"⟩, ⟨"Email", "email", ""⟩])) Obj.other).2 =
      .returned (some (asciiToLower "Password" ++ " must be minimum " ++ "8" ++ " characters")) :=
  ((validate_message (goLib fun _ => some (.ValidationErrors
      [⟨"Password", "min", "8"⟩, ⟨"Email", "email", ""⟩])) Obj.other).2
    "Password" "min" "8" [⟨"Email", "email", ""⟩] rfl).2.1 rfl

/-- C7: the translator's output depends only on the first violation: when the rule
engine reports two non-empty violation lists with the same first element, `validate`
returns the same single message for both, whatever follows the first element. -/
theorem validate_first_violation_only {T V : Type} (L : Lib T V) (data data' : Obj T V)
    (v : FieldError) (rest rest' : List FieldError)
    (h : L.inputValidation_Struct data = some (.ValidationErrors (v :: rest)))
    (h' : L.inputValidation_Struct data' = some (.ValidationErrors (v :: rest'))) :
    (validate L data).2 = (validate L data').2 ∧
      ∃ msg, (validate L data).2 = .returned (some msg) := by
  simp [validate, h, h']

/-- C7 at a concrete input: a record with both fields empty violates `required` on
`Name` and on `Email`, a record with only `Name` empty violates the first alone; the
message is the same. -/
theorem validate_first_violation_only_witness :
    (validate (goLib userEngine) (.ptrToStruct userSchema [.string "", .string ""])).2 =
        (validate (goLib userEngine)
          (.ptrToStruct userSchema [.string "", .string "ann@x.com"])).2 ∧
      ∃ msg, (validate (goLib userEngine)
        (.ptrToStruct userSchema [.string "", .string ""])).2 = .returned (some msg) :=
  validate_first_violation_only (goLib userEngine)
    (.ptrToStruct userSchema [.string "", .string ""])
    (.ptrToStruct userSchema [.string "", .string "ann@x.com"])
    ⟨"Name", "required", ""⟩ [⟨"Email", "required", ""⟩] [] rfl rfl

/-! ## The handler -/

theorem validate_events {T V : Type} (L : Lib T V) (data : Obj T V) :
    (validate L data).1 = [Event.validatorStruct data] := rfl

/-- The run of the handler when the decoder returns an error. -/
theorem ValidationHandler_of_bind_error {T V : Type} (L : Lib T V) (t : RType T) (ctx : Body)
    (obj : Obj T V) (err : String)
    (h : BindJSONCaseSensitive L ctx (reflect_New L t) = (obj, .returned (some err))) :
    ValidationHandler L (some t) ctx =
      ⟨[.logPrintln ("Failed to bind JSON: " ++ err), .ErrorResponse 400 err], none⟩ := by
  simp only [ValidationHandler, h]

/-- The run of the handler when the decoder panics. -/
theorem ValidationHandler_of_bind_panic {T V : Type} (L : Lib T V) (t : RType T) (ctx : Body)
    (obj : Obj T V) (msg : String)
    (h : BindJSONCaseSensitive L ctx (reflect_New L t) = (obj, .panicked msg)) :
    ValidationHandler L (some t) ctx = ⟨[], some msg⟩ := by
  simp only [ValidationHandler, h]

/-- The run of the handler when the decoder succeeds, by the exit of `validate`. -/
theorem ValidationHandler_of_bind_ok {T V : Type} (L : Lib T V) (t : RType T) (ctx : Body)
    (payload : Obj T V)
    (h : BindJSONCaseSensitive L ctx (reflect_New L t) = (payload, .returned none)) :
    ValidationHandler L (some t) ctx =
      match (validate L payload).2 with
      | .panicked msg => ⟨[.validatorStruct payload], some msg⟩
      | .returned (some err) =>
        ⟨[.validatorStruct payload, .logPrintln ("Validation error: " ++ err),
          .ErrorResponse 400 err], none⟩
      | .returned none => ⟨[.validatorStruct payload, .ctxSet "payload" payload, .ctxNext], none⟩ := by
  simp only [ValidationHandler, h]
  have hev := validate_events L payload
  rcases hv : validate L payload with ⟨evs, ex⟩
  rw [hv] at hev
  simp only at hev
  subst hev
  rcases ex with (_ | err) | msg <;> rfl

/-- C5: whenever the decoder fails with an error, the handler rejects with exactly the
decoder's message (and with no other), the rule engine is not invoked, no payload is
stored in the context, `ctx.Next()` is not called and, the error response having
aborted the context, gin does not run the next handler. -/
theorem ValidationHandler_decode_failure {T V : Type} (L : Lib T V) (t : RType T) (ctx : Body)
    (obj : Obj T V) (err : String)
    (h : BindJSONCaseSensitive L ctx (reflect_New L t) = (obj, .returned (some err))) :
    (ValidationHandler L (some t) ctx).rejectedWith err ∧
      (∀ msg, (ValidationHandler L (some t) ctx).rejectedWith msg → msg = err) ∧
      ¬ (ValidationHandler L (some t) ctx).engineInvoked ∧
      ¬ (ValidationHandler L (some t) ctx).payloadStored ∧
      ¬ (ValidationHandler L (some t) ctx).nextRun ∧
      ¬ (ValidationHandler L (some t) ctx).nextHandlerRuns ∧
      (ValidationHandler L (some t) ctx).panicked = none := by
  rw [ValidationHandler_of_bind_error L t ctx obj err h]
  simp [Run.rejectedWith, Run.engineInvoked, Run.payloadStored, Run.nextRun,
    Run.nextHandlerRuns, Run.aborted]

/-! ## The decoder: the loop computes `decodeFields` -/

theorem bindLoop_eq_decodeFields {T V : Type} (L : Lib T V) (raw : RawMap) :
    ∀ (fs : List (StructField T)) (pre post : List V),
      bindLoop L raw fs pre.length (pre ++ fs.map (fun f => L.zeroValue f.Typ) ++ post) =
        match decodeFields L raw fs with
        | .done vs => .done (pre ++ vs ++ post)
        | .returned err => .returned err
        | .panicked msg => .panicked msg
  | [], pre, post => by simp [bindLoop, decodeFields]
  | field :: rest, pre, post => by
    have hcur : (pre ++ (field :: rest).map (fun f => L.zeroValue f.Typ) ++ post).get? pre.length =
        some (L.zeroValue field.Typ) := by
      simp only [List.map_cons, List.append_assoc, List.cons_append, List.get?_eq_getElem?]
      rw [List.getElem?_append_right (le_refl _)]
      simp
    have hskip : pre ++ (field :: rest).map (fun f => L.zeroValue f.Typ) ++ post =
        (pre ++ [L.zeroValue field.Typ]) ++ rest.map (fun f => L.zeroValue f.Typ) ++ post := by
      simp
    have hset : ∀ v, (pre ++ (field :: rest).map (fun f => L.zeroValue f.Typ) ++ post).set
        pre.length v = (pre ++ [v]) ++ rest.map (fun f => L.zeroValue f.Typ) ++ post := by
      intro v
      simp [List.set_append]
    have hlen : ∀ v : V, pre.length + 1 = (pre ++ [v]).length := by
      intro v; simp
    have ih := bindLoop_eq_decodeFields L raw rest
    rw [bindLoop, decodeFields, decodeField]
    by_cases htag : field.jsonTag = ""
    · rw [if_pos htag, if_pos htag, hskip, hlen (L.zeroValue field.Typ), ih]
      cases decodeFields L raw rest <;> simp
    · rw [if_neg htag, if_neg htag]
      cases hget : raw.get field.jsonTag with
      | none =>
        simp only
        rw [hskip, hlen (L.zeroValue field.Typ), ih]
        cases decodeFields L raw rest <;> simp
      | some rawValue =>
        simp only
        by_cases hpkg : field.PkgPath ≠ ""
        · rw [if_pos hpkg, if_pos hpkg]
        · rw [if_neg hpkg, if_neg hpkg, hcur]
          simp only
          cases hu : L.json_Unmarshal rawValue field.Typ (L.zeroValue field.Typ) with
          | error err => rfl
          | ok v =>
            simp only
            rw [hset v, hlen v, ih]
            cases decodeFields L raw rest <;> simp

/-- The decoder on a pointer to a struct, in terms of `decodeFields`. -/
theorem BindJSONCaseSensitive_ptrToStruct {T V : Type} (L : Lib T V) (c : Body)
    (typ : List (StructField T)) (old : List V) :
    BindJSONCaseSensitive L c (.ptrToStruct typ old) =
      match ShouldBindJSON c with
      | .error err => (.ptrToStruct typ old, .returned (some err))
      | .ok raw =>
        match decodeFields L raw typ with
        | .done vs => (.ptrToStruct typ vs, .returned none)
        | .returned err => (.ptrToStruct typ old, .returned (some err))
        | .panicked msg => (.ptrToStruct typ old, .panicked msg) := by
  rw [BindJSONCaseSensitive]
  cases ShouldBindJSON c with
  | error err => rfl
  | ok raw =>
    simp only
    have h := bindLoop_eq_decodeFields L raw typ [] []
    simp only [List.length_nil, List.nil_append, List.append_nil] at h
    rw [h]
    cases decodeFields L raw typ <;> rfl

theorem decodeFields_done_iff {T V : Type} (L : Lib T V) (raw : RawMap) :
    ∀ (fs : List (StructField T)) (vs : List V),
      decodeFields L raw fs = .done vs ↔
        List.Forall₂ (fun f v => decodeField L raw f = .value v) fs vs
  | [], vs => by
    simp only [decodeFields, Loop.done.injEq]
    constructor
    · rintro rfl; exact List.Forall₂.nil
    · intro h; cases h; rfl
  | field :: rest, vs => by
    rw [decodeFields]
    cases hf : decodeField L raw field with
    | returned err =>
      simp only
      constructor
      · intro h; cases h
      · intro h
        cases h with
        | cons h1 _ => rw [hf] at h1; cases h1
    | panicked msg =>
      simp only
      constructor
      · intro h; cases h
      · intro h
        cases h with
        | cons h1 _ => rw [hf] at h1; cases h1
    | value v =>
      simp only
      cases hr : decodeFields L raw rest with
      | done ws =>
        simp only [Loop.done.injEq]
        constructor
        · rintro rfl
          exact List.Forall₂.cons hf ((decodeFields_done_iff L raw rest ws).mp hr)
        · intro h
          cases h with
          | @cons _ v' _ ws' h1 h2 =>
            rw [hf] at h1
            cases h1
            have := (decodeFields_done_iff L raw rest ws').mpr h2
            rw [hr] at this
            cases this
            rfl
      | returned err =>
        simp only
        constructor
        · intro h; cases h
        · intro h
          cases h with
          | cons _ h2 =>
            have := (decodeFields_done_iff L raw rest _).mpr h2
            rw [hr] at this
            cases this
      | panicked msg =>
        simp only
        constructor
        · intro h; cases h
        · intro h
          cases h with
          | cons _ h2 =>
            have := (decodeFields_done_iff L raw rest _).mpr h2
            rw [hr] at this
            cases this

theorem forall₂_getElem? {α β : Type} {R : α → β → Prop} :
    ∀ {xs : List α} {ys : List β}, List.Forall₂ R xs ys →
      ∀ (k : Nat) (x : α), xs[k]? = some x → ∃ y, ys[k]? = some y ∧ R x y
  | _, _, .nil, k, x, h => by simp at h
  | _, _, .cons h1 h2, 0, x, h => by
    simp only [List.getElem?_cons_zero, Option.some.injEq] at h
    subst h
    exact ⟨_, by simp, h1⟩
  | _, _, .cons _ h2, k + 1, x, h => by
    simp only [List.getElem?_cons_succ] at h
    simpa using forall₂_getElem? h2 k x h

theorem forall₂_of_getElem? {α β : Type} {R : α → β → Prop} :
    ∀ (xs : List α) (ys : List β), xs.length = ys.length →
      (∀ (k : Nat) (x : α) (y : β), xs[k]? = some x → ys[k]? = some y → R x y) →
      List.Forall₂ R xs ys
  | [], [], _, _ => .nil
  | [], _ :: _, hl, _ => by simp at hl
  | _ :: _, [], hl, _ => by simp at hl
  | x :: xs, y :: ys, hl, h =>
    .cons (h 0 x y (by simp) (by simp))
      (forall₂_of_getElem? xs ys (by simpa using hl) fun k a b ha hb =>
        h (k + 1) a b (by simpa using ha) (by simpa using hb))

/-- Every field converts: the loop runs to its end. -/
theorem decodeFields_total {T V : Type} (L : Lib T V) (raw : RawMap) :
    ∀ (fs : List (StructField T)), (∀ f ∈ fs, ∃ v, decodeField L raw f = .value v) →
      ∃ vs, decodeFields L raw fs = .done vs
  | [], _ => ⟨[], rfl⟩
  | field :: rest, h => by
    obtain ⟨v, hv⟩ := h field (List.mem_cons_self _ _)
    obtain ⟨vs, hvs⟩ := decodeFields_total L raw rest fun f hf => h f (List.mem_cons_of_mem _ hf)
    exact ⟨v :: vs, by rw [decodeFields, hv]; simp only; rw [hvs]⟩

/-- An early `return err` comes from one field's `json.Unmarshal`. -/
theorem decodeFields_returned {T V : Type} (L : Lib T V) (raw : RawMap) (err : String) :
    ∀ (fs : List (StructField T)), decodeFields L raw fs = .returned err →
      ∃ f ∈ fs, decodeField L raw f = .returned err
  | [], h => by simp [decodeFields] at h
  | field :: rest, h => by
    rw [decodeFields] at h
    cases hf : decodeField L raw field with
    | returned e =>
      rw [hf] at h
      simp only [Loop.returned.injEq] at h
      exact ⟨field, List.mem_cons_self _ _, by rw [hf, h]⟩
    | panicked msg => rw [hf] at h; cases h
    | value v =>
      rw [hf] at h
      simp only at h
      cases hr : decodeFields L raw rest with
      | done ws => rw [hr] at h; cases h
      | panicked msg => rw [hr] at h; cases h
      | returned e =>
        rw [hr] at h
        simp only [Loop.returned.injEq] at h
        obtain ⟨f, hf, hd⟩ := decodeFields_returned L raw e rest hr
        exact ⟨f, List.mem_cons_of_mem _ hf, by rw [hd, h]⟩

/-- The loop reads the map only at the json tags of the struct type. -/
theorem decodeFields_congr {T V : Type} (L : Lib T V) (raw raw' : RawMap) :
    ∀ (fs : List (StructField T)),
      (∀ f ∈ fs, f.jsonTag ≠ "" → raw'.get f.jsonTag = raw.get f.jsonTag) →
      decodeFields L raw' fs = decodeFields L raw fs
  | [], _ => rfl
  | field :: rest, h => by
    have hf : decodeField L raw' field = decodeField L raw field := by
      unfold decodeField
      by_cases htag : field.jsonTag = ""
      · rw [if_pos htag, if_pos htag]
      · rw [if_neg htag, if_neg htag, h field (List.mem_cons_self _ _) htag]
    rw [decodeFields, decodeFields, hf,
      decodeFields_congr L raw raw' rest fun f hm => h f (List.mem_cons_of_mem _ hm)]

/-! ## The decoder: single fields -/

theorem decodeField_absent {T V : Type} (L : Lib T V) (raw : RawMap) (f : StructField T)
    (h : f.jsonTag = "" ∨ raw.get f.jsonTag = none) :
    decodeField L raw f = .value (L.zeroValue f.Typ) := by
  unfold decodeField
  by_cases htag : f.jsonTag = ""
  · rw [if_pos htag]
  · rw [if_neg htag, h.resolve_left htag]

theorem decodeField_present {T V : Type} (L : Lib T V) (raw : RawMap) (f : StructField T)
    (rawValue : JSON) (htag : f.jsonTag ≠ "") (hget : raw.get f.jsonTag = some rawValue)
    (hpkg : f.PkgPath = "") :
    decodeField L raw f =
      match L.json_Unmarshal rawValue f.Typ (L.zeroValue f.Typ) with
      | .error err => .returned err
      | .ok v => .value v := by
  unfold decodeField
  rw [if_neg htag, hget]
  simp only [hpkg, ne_eq, not_true_eq_false, if_false]

theorem decodeField_returned {T V : Type} (L : Lib T V) (raw : RawMap) (f : StructField T)
    (err : String) (h : decodeField L raw f = .returned err) :
    f.jsonTag ≠ "" ∧ ∃ rawValue, raw.get f.jsonTag = some rawValue ∧
      L.json_Unmarshal rawValue f.Typ (L.zeroValue f.Typ) = .error err := by
  unfold decodeField at h
  by_cases htag : f.jsonTag = ""
  · rw [if_pos htag] at h; cases h
  · rw [if_neg htag] at h
    refine ⟨htag, ?_⟩
    cases hget : raw.get f.jsonTag with
    | none => rw [hget] at h; cases h
    | some rawValue =>
      rw [hget] at h
      simp only at h
      by_cases hpkg : f.PkgPath ≠ ""
      · rw [if_pos hpkg] at h; cases h
      · rw [if_neg hpkg] at h
        cases hu : L.json_Unmarshal rawValue f.Typ (L.zeroValue f.Typ) with
        | ok v => rw [hu] at h; cases h
        | error e =>
          rw [hu] at h
          simp only [Step.returned.injEq] at h
          exact ⟨rawValue, rfl, by rw [hu, h]⟩

/-- A field whose present key does not unmarshal never yields a value. -/
theorem decodeField_not_value {T V : Type} (L : Lib T V) (raw : RawMap) (f : StructField T)
    (rawValue : JSON) (err : String) (htag : f.jsonTag ≠ "")
    (hget : raw.get f.jsonTag = some rawValue)
    (hu : L.json_Unmarshal rawValue f.Typ (L.zeroValue f.Typ) = .error err) (v : V) :
    decodeField L raw f ≠ .value v := by
  unfold decodeField
  rw [if_neg htag, hget]
  simp only
  by_cases hpkg : f.PkgPath ≠ ""
  · rw [if_pos hpkg]; intro h; cases h
  · rw [if_neg hpkg, hu]; intro h; cases h

theorem decodeFields_not_done {T V : Type} (L : Lib T V) (raw : RawMap)
    (fs : List (StructField T)) (f : StructField T) (hf : f ∈ fs)
    (hnv : ∀ v, decodeField L raw f ≠ .value v) (vs : List V) :
    decodeFields L raw fs ≠ .done vs := by
  intro h
  obtain ⟨k, hk⟩ := List.mem_iff_getElem?.mp hf
  obtain ⟨v, _, hv⟩ := forall₂_getElem? ((decodeFields_done_iff L raw fs vs).mp h) k f hk
  exact hnv v hv

/-- When no field panics, the loop ends normally or with an error. -/
theorem decodeFields_not_panicked {T V : Type} (L : Lib T V) (raw : RawMap) :
    ∀ (fs : List (StructField T)), (∀ f ∈ fs, f.PkgPath = "") →
      ∀ msg, decodeFields L raw fs ≠ .panicked msg
  | [], _, msg => by simp [decodeFields]
  | field :: rest, h, msg => by
    have ih := decodeFields_not_panicked L raw rest (fun f hf => h f (List.mem_cons_of_mem _ hf))
    have hpkg : field.PkgPath = "" := h field (List.mem_cons_self _ _)
    rw [decodeFields]
    cases hf : decodeField L raw field with
    | returned err => simp
    | panicked m =>
      exfalso
      unfold decodeField at hf
      by_cases htag : field.jsonTag = ""
      · rw [if_pos htag] at hf; cases hf
      · rw [if_neg htag] at hf
        cases hget : raw.get field.jsonTag with
        | none => rw [hget] at hf; cases hf
        | some rawValue =>
          rw [hget] at hf
          simp only [hpkg, ne_eq, not_true_eq_false, if_false] at hf
          cases hu : L.json_Unmarshal rawValue field.Typ (L.zeroValue field.Typ) <;>
            rw [hu] at hf <;> cases hf
    | value v =>
      simp only
      cases hr : decodeFields L raw rest with
      | done ws => simp
      | returned err => simp
      | panicked m => exact absurd hr (ih m)

/-! ## The parsed body -/

theorem get_foldl_set_congr (k : String) :
    ∀ (members : List (String × JSON)) (m m' : RawMap), m.get k = m'.get k →
      RawMap.get (members.foldl (fun m kv => m.set kv.1 kv.2) m) k =
        RawMap.get (members.foldl (fun m kv => m.set kv.1 kv.2) m') k
  | [], _, _, h => h
  | kv :: rest, m, m', h => by
    rw [List.foldl_cons, List.foldl_cons]
    apply get_foldl_set_congr k rest
    obtain ⟨a, b⟩ := kv
    simp only [RawMap.set, RawMap.get, h]

/-- Members whose key is not looked up do not matter to a lookup. -/
theorem get_foldl_set_filter (P : String → Bool) (k : String) (hk : P k = true) :
    ∀ (members : List (String × JSON)) (m : RawMap),
      RawMap.get ((members.filter fun kv => P kv.1).foldl (fun m kv => m.set kv.1 kv.2) m) k =
        RawMap.get (members.foldl (fun m kv => m.set kv.1 kv.2) m) k
  | [], _ => rfl
  | kv :: rest, m => by
    by_cases hp : P kv.1 = true
    · have hfil : (kv :: rest).filter (fun kv => P kv.1) =
          kv :: rest.filter (fun kv => P kv.1) := by
        simp [List.filter_cons, hp]
      rw [hfil, List.foldl_cons, List.foldl_cons, get_foldl_set_filter P k hk rest]
    · have hfil : (kv :: rest).filter (fun kv => P kv.1) = rest.filter (fun kv => P kv.1) := by
        simp [List.filter_cons, hp]
      rw [hfil, List.foldl_cons, get_foldl_set_filter P k hk rest m]
      apply get_foldl_set_congr k rest
      obtain ⟨a, b⟩ := kv
      have hne : a ≠ k := fun h => hp (h ▸ hk)
      simp only [RawMap.set, RawMap.get, if_neg hne]

/-- A key that no member of the object carries is not in the parsed map. -/
theorem get_foldl_set_eq_none (k : String) :
    ∀ (members : List (String × JSON)) (m : RawMap), m.get k = none →
      (∀ kv ∈ members, kv.1 ≠ k) →
      RawMap.get (members.foldl (fun m kv => m.set kv.1 kv.2) m) k = none
  | [], _, h, _ => h
  | kv :: rest, m, h, hne => by
    rw [List.foldl_cons]
    apply get_foldl_set_eq_none k rest _ _ fun x hx => hne x (List.mem_cons_of_mem _ hx)
    obtain ⟨a, b⟩ := kv
    have ha : a ≠ k := hne (a, b) (List.mem_cons_self _ _)
    simp only [RawMap.set, RawMap.get, if_neg ha, h]

/-! ## The decoder: results -/

theorem BindJSONCaseSensitive_of_done {T V : Type} (L : Lib T V) (c : Body)
    (typ : List (StructField T)) (old : List V) (raw : RawMap) (vs : List V)
    (hraw : ShouldBindJSON c = .ok raw) (h : decodeFields L raw typ = .done vs) :
    BindJSONCaseSensitive L c (.ptrToStruct typ old) = (.ptrToStruct typ vs, .returned none) := by
  rw [BindJSONCaseSensitive_ptrToStruct, hraw]
  simp only [h]

theorem BindJSONCaseSensitive_of_returned {T V : Type} (L : Lib T V) (c : Body)
    (typ : List (StructField T)) (old : List V) (raw : RawMap) (err : String)
    (hraw : ShouldBindJSON c = .ok raw) (h : decodeFields L raw typ = .returned err) :
    BindJSONCaseSensitive L c (.ptrToStruct typ old) =
      (.ptrToStruct typ old, .returned (some err)) := by
  rw [BindJSONCaseSensitive_ptrToStruct, hraw]
  simp only [h]

theorem BindJSONCaseSensitive_of_panicked {T V : Type} (L : Lib T V) (c : Body)
    (typ : List (StructField T)) (old : List V) (raw : RawMap) (msg : String)
    (hraw : ShouldBindJSON c = .ok raw) (h : decodeFields L raw typ = .panicked msg) :
    BindJSONCaseSensitive L c (.ptrToStruct typ old) = (.ptrToStruct typ old, .panicked msg) := by
  rw [BindJSONCaseSensitive_ptrToStruct, hraw]
  simp only [h]

/-- A successful call went through the whole loop. -/
theorem BindJSONCaseSensitive_ok_inv {T V : Type} (L : Lib T V) (c : Body)
    (typ : List (StructField T)) (old : List V) (obj : Obj T V)
    (h : BindJSONCaseSensitive L c (.ptrToStruct typ old) = (obj, .returned none)) :
    ∃ raw vs, ShouldBindJSON c = .ok raw ∧ decodeFields L raw typ = .done vs ∧
      obj = .ptrToStruct typ vs := by
  rw [BindJSONCaseSensitive_ptrToStruct] at h
  cases hraw : ShouldBindJSON c with
  | error err => rw [hraw] at h; cases h
  | ok raw =>
    rw [hraw] at h
    simp only at h
    cases hd : decodeFields L raw typ with
    | done vs =>
      rw [hd] at h
      simp only [Prod.mk.injEq, and_true] at h
      exact ⟨raw, vs, rfl, hd, h.symm⟩
    | returned err => rw [hd] at h; cases h
    | panicked msg => rw [hd] at h; cases h

/-- After the whole loop, field `k` holds what its own step produced. -/
theorem decodeFields_done_getElem? {T V : Type} (L : Lib T V) (raw : RawMap)
    (typ : List (StructField T)) (vs : List V) (h : decodeFields L raw typ = .done vs)
    (k : Nat) (f : StructField T) (hf : typ[k]? = some f) :
    ∃ v, vs[k]? = some v ∧ decodeField L raw f = .value v :=
  forall₂_getElem? ((decodeFields_done_iff L raw typ vs).mp h) k f hf

theorem decodeFields_done_length {T V : Type} (L : Lib T V) (raw : RawMap)
    (typ : List (StructField T)) (vs : List V) (h : decodeFields L raw typ = .done vs) :
    vs.length = typ.length :=
  ((decodeFields_done_iff L raw typ vs).mp h).length_eq.symm

/-! ## The decoder: claims -/

/-- C3 (as stated) fails: no key of the body equals the json tag `name` of the first
field (the body has `Name`), yet decoding does not succeed, because the value of `age`
does not convert. -/
theorem BindJSONCaseSensitive_key_exact_other_field :
    (∀ kv ∈ [("Name", JSON.string "Ann"), ("age", JSON.string "old")], kv.1 ≠ "name") ∧
      memberSchema[0]? = some ⟨"Name", "", .string, "name"⟩ ∧
      BindJSONCaseSensitive (goLib userEngine)
          (.json (.object [("Name", .string "Ann"), ("age", .string "old")]))
          (.ptrToStruct memberSchema []) =
        (.ptrToStruct memberSchema [],
          .returned (some "json: cannot unmarshal string into Go value of type int")) := by
  decide

/-- C3 (amended): key matching is case-sensitive and exact.  For a field of the struct type
(index `k`) and a body object none of whose keys equals the field's json tag (keys that
differ from it in letter case included), the field is at its zero value after every
successful decode, and decoding does succeed, with the field at its zero value, as soon
as no other field stops the loop. -/
theorem BindJSONCaseSensitive_key_exact {T V : Type} (L : Lib T V)
    (typ : List (StructField T)) (old : List V) (members : List (String × JSON)) (raw : RawMap)
    (k : Nat) (f : StructField T)
    (hraw : ShouldBindJSON (.json (.object members)) = .ok raw)
    (hf : typ[k]? = some f) (habs : ∀ kv ∈ members, kv.1 ≠ f.jsonTag) :
    (∀ obj, BindJSONCaseSensitive L (.json (.object members)) (.ptrToStruct typ old) =
        (obj, .returned none) →
      ∃ value, obj = .ptrToStruct typ value ∧ value[k]? = some (L.zeroValue f.Typ)) ∧
    ((∀ j g, j ≠ k → typ[j]? = some g → ∃ v, decodeField L raw g = .value v) →
      ∃ value, BindJSONCaseSensitive L (.json (.object members)) (.ptrToStruct typ old) =
          (.ptrToStruct typ value, .returned none) ∧
        value[k]? = some (L.zeroValue f.Typ)) := by
  have hget : raw.get f.jsonTag = none := by
    simp only [ShouldBindJSON, Except.ok.injEq] at hraw
    rw [← hraw]
    exact get_foldl_set_eq_none _ members [] rfl habs
  have hdf := decodeField_absent L raw f (Or.inr hget)
  have hzero : ∀ vs, decodeFields L raw typ = .done vs → vs[k]? = some (L.zeroValue f.Typ) := by
    intro vs hvs
    obtain ⟨v, hv, hd⟩ := decodeFields_done_getElem? L raw typ vs hvs k f hf
    rw [hdf] at hd
    cases hd
    exact hv
  constructor
  · intro obj h
    obtain ⟨raw', vs, hraw', hd, hobj⟩ := BindJSONCaseSensitive_ok_inv L _ typ old obj h
    rw [hraw] at hraw'
    cases hraw'
    exact ⟨vs, hobj, hzero vs hd⟩
  · intro hothers
    have hall : ∀ g ∈ typ, ∃ v, decodeField L raw g = .value v := by
      intro g hg
      obtain ⟨j, hj⟩ := List.mem_iff_getElem?.mp hg
      by_cases hjk : j = k
      · subst hjk
        rw [hf] at hj
        cases hj
        exact ⟨_, hdf⟩
      · exact hothers j g hjk hj
    obtain ⟨vs, hvs⟩ := decodeFields_total L raw typ hall
    exact ⟨vs, BindJSONCaseSensitive_of_done L _ typ old raw vs hraw hvs, hzero vs hvs⟩

/-- C3 (amended) at the specification's example: the body has the key `Email`, the field's json
tag is `email`; decoding succeeds and the field holds the empty string. -/
theorem BindJSONCaseSensitive_key_exact_witness :
    ∃ value, BindJSONCaseSensitive (goLib userEngine)
        (.json (.object [("name", .string "Ann"), ("Email", .string "a@b.com")]))
        (.ptrToStruct userSchema []) = (.ptrToStruct userSchema value, .returned none) ∧
      value[1]? = some (goZero .string) :=
  (BindJSONCaseSensitive_key_exact (goLib userEngine) userSchema []
    [("name", .string "Ann"), ("Email", .string "a@b.com")]
    [("Email", .string "a@b.com"), ("name", .string "Ann")] 1
    ⟨"Email", "", .string, "email"⟩ rfl rfl (by decide)).2
    (by
      intro j g hj hg
      match j, hj, hg with
      | 0, _, hg =>
        simp only [userSchema, List.getElem?_cons_zero, Option.some.injEq] at hg
        subst hg
        exact ⟨.string "Ann", rfl⟩
      | 1, hj, _ => exact absurd rfl hj
      | n + 2, _, hg => simp [userSchema] at hg)

/-- C4 (as stated) fails: the only field of `hiddenSchema` is unexported and tagged
`name`, the body maps `name` to a string, which converts to the field's type, and there
is no other field; yet the decoder does not succeed: it panics. -/
theorem BindJSONCaseSensitive_unexported_panics :
    hiddenSchema[0]? = some ⟨"name", "middlewares", .string, "name"⟩ ∧
      goUnmarshal (.string "Ann") .string (goZero .string) = .ok (.string "Ann") ∧
      BindJSONCaseSensitive (goLib userEngine) (.json (.object [("name", .string "Ann")]))
          (.ptrToStruct hiddenSchema []) =
        (.ptrToStruct hiddenSchema [],
          .panicked "reflect.Value.Interface: cannot return value obtained from unexported field or method") :=
  ⟨by decide, rfl, by decide⟩

/-- C4 (amended): when the parsed body maps the json tag of an exported field (index `k`) to a
JSON value that `json.Unmarshal` converts to `v` for the field's type, and no other
field stops the loop, the decoder succeeds and the field of the decoded record is
exactly `v`. -/
theorem BindJSONCaseSensitive_populates {T V : Type} (L : Lib T V) (c : Body)
    (typ : List (StructField T)) (old : List V) (raw : RawMap)
    (k : Nat) (f : StructField T) (rawValue : JSON) (v : V)
    (hraw : ShouldBindJSON c = .ok raw) (hf : typ[k]? = some f)
    (htag : f.jsonTag ≠ "") (hpkg : f.PkgPath = "")
    (hget : raw.get f.jsonTag = some rawValue)
    (hconv : L.json_Unmarshal rawValue f.Typ (L.zeroValue f.Typ) = .ok v)
    (hothers : ∀ j g, j ≠ k → typ[j]? = some g → ∃ w, decodeField L raw g = .value w) :
    ∃ value, BindJSONCaseSensitive L c (.ptrToStruct typ old) =
        (.ptrToStruct typ value, .returned none) ∧ value[k]? = some v := by
  have hdf : decodeField L raw f = .value v := by
    rw [decodeField_present L raw f rawValue htag hget hpkg, hconv]
  have hall : ∀ g ∈ typ, ∃ w, decodeField L raw g = .value w := by
    intro g hg
    obtain ⟨j, hj⟩ := List.mem_iff_getElem?.mp hg
    by_cases hjk : j = k
    · subst hjk
      rw [hf] at hj
      cases hj
      exact ⟨_, hdf⟩
    · exact hothers j g hjk hj
  obtain ⟨vs, hvs⟩ := decodeFields_total L raw typ hall
  refine ⟨vs, BindJSONCaseSensitive_of_done L c typ old raw vs hraw hvs, ?_⟩
  obtain ⟨w, hw, hd⟩ := decodeFields_done_getElem? L raw typ vs hvs k f hf
  rw [hdf] at hd
  cases hd
  exact hw

/-- C4 (amended) at the specification's example: the body with `name` "Ann" and `email`
"ann@x.com" decodes to a record whose `Email` field is exactly "ann@x.com". -/
theorem BindJSONCaseSensitive_populates_witness :
    ∃ value, BindJSONCaseSensitive (goLib userEngine)
        (.json (.object [("name", .string "Ann"), ("email", .string "ann@x.com")]))
        (.ptrToStruct userSchema []) = (.ptrToStruct userSchema value, .returned none) ∧
      value[1]? = some (.string "ann@x.com") :=
  BindJSONCaseSensitive_populates (goLib userEngine)
    (.json (.object [("name", .string "Ann"), ("email", .string "ann@x.com")]))
    userSchema [] [("email", .string "ann@x.com"), ("name", .string "Ann")] 1
    ⟨"Email", "", .string, "email"⟩ (.string "ann@x.com") (.string "ann@x.com")
    rfl rfl (by decide) rfl rfl rfl
    (by
      intro j g hj hg
      match j, hj, hg with
      | 0, _, hg =>
        simp only [userSchema, List.getElem?_cons_zero, Option.some.injEq] at hg
        subst hg
        exact ⟨.string "Ann", rfl⟩
      | 1, hj, _ => exact absurd rfl hj
      | n + 2, _, hg => simp [userSchema] at hg)

/-- C8: unknown keys are ignored.  Two body objects that have the same members once the
members whose key is not a JSON key of the struct type are removed (so: one is the other
with unknown keys added anywhere) give the same result: the same exit and the same
decoded record. -/
theorem BindJSONCaseSensitive_unknown_keys_ignored {T V : Type} (L : Lib T V)
    (typ : List (StructField T)) (old : List V) (members members' : List (String × JSON))
    (h : members'.filter (fun kv => decide (kv.1 ∈ jsonKeys typ)) =
      members.filter (fun kv => decide (kv.1 ∈ jsonKeys typ))) :
    BindJSONCaseSensitive L (.json (.object members')) (.ptrToStruct typ old) =
      BindJSONCaseSensitive L (.json (.object members)) (.ptrToStruct typ old) := by
  rw [BindJSONCaseSensitive_ptrToStruct, BindJSONCaseSensitive_ptrToStruct]
  simp only [ShouldBindJSON]
  rw [decodeFields_congr L _ _ typ]
  intro f hf htag
  have hk : (fun k => decide (k ∈ jsonKeys typ)) f.jsonTag = true := by
    simp only [jsonKeys, decide_eq_true_eq, List.mem_filter, List.mem_map]
    exact ⟨⟨f, hf, rfl⟩, by simpa using htag⟩
  rw [← get_foldl_set_filter (fun k => decide (k ∈ jsonKeys typ)) f.jsonTag hk members' [],
    ← get_foldl_set_filter (fun k => decide (k ∈ jsonKeys typ)) f.jsonTag hk members [], h]

/-- C8 at a concrete input: the keys `role` and `Email` are not keys of `userSchema`. -/
theorem BindJSONCaseSensitive_unknown_keys_ignored_witness :
    BindJSONCaseSensitive (goLib userEngine)
        (.json (.object [("role", .array [.number 1 ""]), ("name", .string "Ann"),
          ("Email", .object []), ("email", .string "ann@x.com")]))
        (.ptrToStruct userSchema []) =
      BindJSONCaseSensitive (goLib userEngine)
        (.json (.object [("name", .string "Ann"), ("email", .string "ann@x.com")]))
        (.ptrToStruct userSchema []) :=
  BindJSONCaseSensitive_unknown_keys_ignored (goLib userEngine) userSchema []
    [("name", .string "Ann"), ("email", .string "ann@x.com")]
    [("role", .array [.number 1 ""]), ("name", .string "Ann"),
      ("Email", .object []), ("email", .string "ann@x.com")] rfl

theorem goUnmarshal_error_of_incompatible (rawValue : JSON) (t : GoType) (cur : GoValue)
    (hnull : rawValue ≠ .null) (hinc : jsonTypeCompatible rawValue t = false) :
    ∃ err, goUnmarshal rawValue t cur = .error err := by
  cases rawValue <;> cases t <;>
    first
    | exact ⟨_, rfl⟩
    | exact absurd rfl hnull
    | simp [jsonTypeCompatible] at hinc

/-- C9 (as stated) fails: the body gives the key `age` the JSON value `null`, whose JSON
type is not the number the `int` field expects; the decoder succeeds and leaves the
field at zero. -/
theorem BindJSONCaseSensitive_null_accepted :
    jsonTypeCompatible .null .int = false ∧
      BindJSONCaseSensitive (goLib userEngine)
          (.json (.object [("name", .string "Ann"), ("age", .null)]))
          (.ptrToStruct memberSchema []) =
        (.ptrToStruct memberSchema [.string "Ann", .int 0], .returned none) := by
  decide

/-- C9 (amended): (1) for every library and every declared field type, whenever the
parsed body maps the json tag of a field of the struct type to a JSON value that
`json.Unmarshal` does not convert to the field's type, the decoder does not succeed and
leaves the caller's object as it was, and it returns an error when all fields are
exported; (2) for fields of type bool, int and string that is the case of every JSON
value other than `null` whose JSON type is not the one the field's type expects; (3) a
`null` for a field of type bool, int or string is not a failure: when the field is
exported and no other field stops the loop, the decoder succeeds and the field is at
its zero value. -/
theorem BindJSONCaseSensitive_type_mismatch :
    (∀ (T V : Type) (L : Lib T V) (c : Body) (typ : List (StructField T)) (old : List V)
        (raw : RawMap) (f : StructField T) (rawValue : JSON) (err : String),
      ShouldBindJSON c = .ok raw → f ∈ typ → f.jsonTag ≠ "" →
      raw.get f.jsonTag = some rawValue →
      L.json_Unmarshal rawValue f.Typ (L.zeroValue f.Typ) = .error err →
      (BindJSONCaseSensitive L c (.ptrToStruct typ old)).2 ≠ .returned none ∧
        (BindJSONCaseSensitive L c (.ptrToStruct typ old)).1 = .ptrToStruct typ old ∧
        ((∀ g ∈ typ, g.PkgPath = "") →
          ∃ e, (BindJSONCaseSensitive L c (.ptrToStruct typ old)).2 = .returned (some e))) ∧
    (∀ (engine : Obj GoType GoValue → Option ValidatorError) (c : Body)
        (typ : List (StructField GoType)) (old : List GoValue) (raw : RawMap)
        (f : StructField GoType) (rawValue : JSON),
      ShouldBindJSON c = .ok raw → f ∈ typ → f.jsonTag ≠ "" →
      raw.get f.jsonTag = some rawValue → rawValue ≠ .null →
      jsonTypeCompatible rawValue f.Typ = false →
      (BindJSONCaseSensitive (goLib engine) c (.ptrToStruct typ old)).2 ≠ .returned none ∧
        (BindJSONCaseSensitive (goLib engine) c (.ptrToStruct typ old)).1 =
          .ptrToStruct typ old ∧
        ((∀ g ∈ typ, g.PkgPath = "") →
          ∃ e, (BindJSONCaseSensitive (goLib engine) c (.ptrToStruct typ old)).2 =
            .returned (some e))) ∧
    (∀ (engine : Obj GoType GoValue → Option ValidatorError) (c : Body)
        (typ : List (StructField GoType)) (old : List GoValue) (raw : RawMap)
        (k : Nat) (f : StructField GoType),
      ShouldBindJSON c = .ok raw → typ[k]? = some f → f.PkgPath = "" →
      raw.get f.jsonTag = some .null →
      (∀ j g, j ≠ k → typ[j]? = some g → ∃ w, decodeField (goLib engine) raw g = .value w) →
      ∃ value, BindJSONCaseSensitive (goLib engine) c (.ptrToStruct typ old) =
          (.ptrToStruct typ value, .returned none) ∧
        value[k]? = some (goZero f.Typ)) := by
  have general : ∀ (T V : Type) (L : Lib T V) (c : Body) (typ : List (StructField T))
      (old : List V) (raw : RawMap) (f : StructField T) (rawValue : JSON) (err : String),
      ShouldBindJSON c = .ok raw → f ∈ typ → f.jsonTag ≠ "" →
      raw.get f.jsonTag = some rawValue →
      L.json_Unmarshal rawValue f.Typ (L.zeroValue f.Typ) = .error err →
      (BindJSONCaseSensitive L c (.ptrToStruct typ old)).2 ≠ .returned none ∧
        (BindJSONCaseSensitive L c (.ptrToStruct typ old)).1 = .ptrToStruct typ old ∧
        ((∀ g ∈ typ, g.PkgPath = "") →
          ∃ e, (BindJSONCaseSensitive L c (.ptrToStruct typ old)).2 = .returned (some e)) := by
    intro T V L c typ old raw f rawValue err hraw hf htag hget herr
    have hnd : ∀ vs, decodeFields L raw typ ≠ .done vs :=
      decodeFields_not_done L raw typ f hf
        (decodeField_not_value L raw f rawValue err htag hget herr)
    cases hd : decodeFields L raw typ with
    | done vs => exact absurd hd (hnd vs)
    | returned e =>
      rw [BindJSONCaseSensitive_of_returned L c typ old raw e hraw hd]
      exact ⟨by simp, rfl, fun _ => ⟨e, rfl⟩⟩
    | panicked msg =>
      rw [BindJSONCaseSensitive_of_panicked L c typ old raw msg hraw hd]
      refine ⟨by simp, rfl, fun hexp => ?_⟩
      exact absurd hd (decodeFields_not_panicked L raw typ hexp msg)
  refine ⟨general, ?_, ?_⟩
  · intro engine c typ old raw f rawValue hraw hf htag hget hnull hinc
    obtain ⟨err, herr⟩ :=
      goUnmarshal_error_of_incompatible rawValue f.Typ (goZero f.Typ) hnull hinc
    exact general GoType GoValue (goLib engine) c typ old raw f rawValue err hraw hf htag hget herr
  · intro engine c typ old raw k f hraw hf hpkg hget hothers
    have hdf : decodeField (goLib engine) raw f = .value (goZero f.Typ) := by
      by_cases htag : f.jsonTag = ""
      · exact decodeField_absent (goLib engine) raw f (Or.inl htag)
      · rw [decodeField_present (goLib engine) raw f .null htag hget hpkg]
        rfl
    have hall : ∀ g ∈ typ, ∃ w, decodeField (goLib engine) raw g = .value w := by
      intro g hg
      obtain ⟨j, hj⟩ := List.mem_iff_getElem?.mp hg
      by_cases hjk : j = k
      · subst hjk
        rw [hf] at hj
        cases hj
        exact ⟨_, hdf⟩
      · exact hothers j g hjk hj
    obtain ⟨vs, hvs⟩ := decodeFields_total (goLib engine) raw typ hall
    refine ⟨vs, BindJSONCaseSensitive_of_done (goLib engine) c typ old raw vs hraw hvs, ?_⟩
    obtain ⟨w, hw, hd⟩ := decodeFields_done_getElem? (goLib engine) raw typ vs hvs k f hf
    rw [hdf] at hd
    cases hd
    exact hw

/-- C9 (amended) at a concrete input: a string for the `int` field `Age`. -/
theorem BindJSONCaseSensitive_type_mismatch_witness :
    (BindJSONCaseSensitive (goLib userEngine)
        (.json (.object [("name", .string "Ann"), ("age", .string "old")]))
        (.ptrToStruct memberSchema [])).2 ≠ .returned none ∧
      (BindJSONCaseSensitive (goLib userEngine)
        (.json (.object [("name", .string "Ann"), ("age", .string "old")]))
        (.ptrToStruct memberSchema [])).1 = .ptrToStruct memberSchema [] ∧
      ((∀ g ∈ memberSchema, g.PkgPath = "") →
        ∃ err, (BindJSONCaseSensitive (goLib userEngine)
          (.json (.object [("name", .string "Ann"), ("age", .string "old")]))
          (.ptrToStruct memberSchema [])).2 = .returned (some err)) :=
  BindJSONCaseSensitive_type_mismatch.2.1 userEngine
    (.json (.object [("name", .string "Ann"), ("age", .string "old")])) memberSchema []
    [("age", .string "old"), ("name", .string "Ann")] ⟨"Age", "", .int, "age"⟩ (.string "old")
    rfl (by decide) (by decide) rfl (fun h => JSON.noConfusion h) rfl

/-- C10: after a successful decode every field whose json tag is empty or is not a key
of the parsed body holds the zero value of its type, whatever the caller's object held
before; a decode error on a parsed body always comes from the `json.Unmarshal` of a key
that is present; and when no field's key is present the decoder succeeds with every
field at zero. -/
theorem BindJSONCaseSensitive_absent_zero {T V : Type} (L : Lib T V) (c : Body)
    (typ : List (StructField T)) (old : List V) :
    (∀ obj, BindJSONCaseSensitive L c (.ptrToStruct typ old) = (obj, .returned none) →
      ∃ raw value, ShouldBindJSON c = .ok raw ∧ obj = .ptrToStruct typ value ∧
        value.length = typ.length ∧
        ∀ (k : Nat) (f : StructField T), typ[k]? = some f →
          (f.jsonTag = "" ∨ raw.get f.jsonTag = none) →
          value[k]? = some (L.zeroValue f.Typ)) ∧
    (∀ raw err, ShouldBindJSON c = .ok raw →
      (BindJSONCaseSensitive L c (.ptrToStruct typ old)).2 = .returned (some err) →
      ∃ f ∈ typ, f.jsonTag ≠ "" ∧ ∃ rawValue, raw.get f.jsonTag = some rawValue ∧
        L.json_Unmarshal rawValue f.Typ (L.zeroValue f.Typ) = .error err) ∧
    (∀ raw, ShouldBindJSON c = .ok raw →
      (∀ f ∈ typ, f.jsonTag = "" ∨ raw.get f.jsonTag = none) →
      BindJSONCaseSensitive L c (.ptrToStruct typ old) =
        (.ptrToStruct typ (typ.map fun f => L.zeroValue f.Typ), .returned none)) := by
  refine ⟨?_, ?_, ?_⟩
  · intro obj h
    obtain ⟨raw, vs, hraw, hd, hobj⟩ := BindJSONCaseSensitive_ok_inv L c typ old obj h
    refine ⟨raw, vs, hraw, hobj, decodeFields_done_length L raw typ vs hd, ?_⟩
    intro k f hf habs
    obtain ⟨v, hv, hdv⟩ := decodeFields_done_getElem? L raw typ vs hd k f hf
    rw [decodeField_absent L raw f habs] at hdv
    cases hdv
    exact hv
  · intro raw err hraw h
    cases hd : decodeFields L raw typ with
    | done vs => rw [BindJSONCaseSensitive_of_done L c typ old raw vs hraw hd] at h; simp at h
    | panicked msg =>
      rw [BindJSONCaseSensitive_of_panicked L c typ old raw msg hraw hd] at h; simp at h
    | returned e =>
      rw [BindJSONCaseSensitive_of_returned L c typ old raw e hraw hd] at h
      simp only [Exit.returned.injEq, Option.some.injEq] at h
      subst h
      obtain ⟨f, hf, hdf⟩ := decodeFields_returned L raw e typ hd
      obtain ⟨htag, rawValue, hget, hu⟩ := decodeField_returned L raw f e hdf
      exact ⟨f, hf, htag, rawValue, hget, hu⟩
  · intro raw hraw habs
    apply BindJSONCaseSensitive_of_done L c typ old raw _ hraw
    rw [decodeFields_done_iff]
    apply forall₂_of_getElem? _ _ (by simp)
    intro k f v hf hv
    rw [List.getElem?_map, hf] at hv
    simp only [Option.map_some', Option.some.injEq] at hv
    rw [← hv]
    exact decodeField_absent L raw f (habs f (List.mem_iff_getElem?.mpr ⟨k, hf⟩))

/-- C10 at a concrete input: the body has only `name`; the caller's object held other
values before; `Age` is zero afterwards. -/
theorem BindJSONCaseSensitive_absent_zero_witness :
    ∃ raw value, ShouldBindJSON (.json (.object [("name", .string "Ann")])) = .ok raw ∧
      Obj.ptrToStruct memberSchema [GoValue.string "Ann", GoValue.int 0] =
        .ptrToStruct memberSchema value ∧
      value.length = memberSchema.length ∧
      ∀ (k : Nat) (f : StructField GoType), memberSchema[k]? = some f →
        (f.jsonTag = "" ∨ raw.get f.jsonTag = none) → value[k]? = some (goZero f.Typ) :=
  (BindJSONCaseSensitive_absent_zero (goLib userEngine) (.json (.object [("name", .string "Ann")]))
    memberSchema [.string "Bob", .int 41]).1 (.ptrToStruct memberSchema [.string "Ann", .int 0]) rfl

/-! ## The handler: claims on its outcome -/

/-- C5 at a concrete input: a string for the `int` field `Age`; the handler answers with
the decoder's message. -/
theorem ValidationHandler_decode_failure_witness :
    (ValidationHandler (goLib userEngine) (some (.struct memberSchema))
        (.json (.object [("age", .string "old")]))).rejectedWith
        "json: cannot unmarshal string into Go value of type int" ∧
      (∀ msg, (ValidationHandler (goLib userEngine) (some (.struct memberSchema))
        (.json (.object [("age", .string "old")]))).rejectedWith msg →
        msg = "json: cannot unmarshal string into Go value of type int") ∧
      ¬ (ValidationHandler (goLib userEngine) (some (.struct memberSchema))
        (.json (.object [("age", .string "old")]))).engineInvoked ∧
      ¬ (ValidationHandler (goLib userEngine) (some (.struct memberSchema))
        (.json (.object [("age", .string "old")]))).payloadStored ∧
      ¬ (ValidationHandler (goLib userEngine) (some (.struct memberSchema))
        (.json (.object [("age", .string "old")]))).nextRun ∧
      ¬ (ValidationHandler (goLib userEngine) (some (.struct memberSchema))
        (.json (.object [("age", .string "old")]))).nextHandlerRuns ∧
      (ValidationHandler (goLib userEngine) (some (.struct memberSchema))
        (.json (.object [("age", .string "old")]))).panicked = none :=
  ValidationHandler_decode_failure (goLib userEngine) (.struct memberSchema)
    (.json (.object [("age", .string "old")]))
    (.ptrToStruct memberSchema [.string "", .int 0])
    "json: cannot unmarshal string into Go value of type int" rfl

/-- C6: whenever decoding succeeds with record `payload`: if the rule engine returns a
non-empty violation list, the handler rejects with the translator's message for that
list, stores nothing and does not call `ctx.Next()`; if it returns no violation, the
handler stores exactly `payload` under the key `payload` and calls `ctx.Next()`, without
any rejection.  Over all runs, the handler rejects if and only if decoding returned an
error or it succeeded and the violation list is non-empty. -/
theorem ValidationHandler_outcome {T V : Type} (L : Lib T V) (t : RType T) (ctx : Body) :
    (∀ payload, BindJSONCaseSensitive L ctx (reflect_New L t) = (payload, .returned none) →
      (∀ v rest, L.inputValidation_Struct payload = some (.ValidationErrors (v :: rest)) →
        ∃ msg, (validate L payload).2 = .returned (some msg) ∧
          ValidationHandler L (some t) ctx =
            ⟨[.validatorStruct payload, .logPrintln ("Validation error: " ++ msg),
              .ErrorResponse 400 msg], none⟩) ∧
      (L.inputValidation_Struct payload = none →
        ValidationHandler L (some t) ctx =
          ⟨[.validatorStruct payload, .ctxSet "payload" payload, .ctxNext], none⟩)) ∧
    ((∃ msg, (ValidationHandler L (some t) ctx).rejectedWith msg) ↔
      ((∃ obj err, BindJSONCaseSensitive L ctx (reflect_New L t) = (obj, .returned (some err))) ∨
        ∃ payload v rest,
          BindJSONCaseSensitive L ctx (reflect_New L t) = (payload, .returned none) ∧
            L.inputValidation_Struct payload = some (.ValidationErrors (v :: rest)))) := by
  constructor
  · intro payload h
    rw [ValidationHandler_of_bind_ok L t ctx payload h]
    constructor
    · intro v rest hv
      have hval : ∃ msg, (validate L payload).2 = .returned (some msg) := by
        simp [validate, hv]
      obtain ⟨msg, hmsg⟩ := hval
      exact ⟨msg, hmsg, by rw [hmsg]⟩
    · intro hv
      have hval : (validate L payload).2 = .returned none := by
        simp [validate, hv]
      rw [hval]
  · rcases hb : BindJSONCaseSensitive L ctx (reflect_New L t) with ⟨obj, ex⟩
    rcases ex with (_ | err) | msg
    · rw [ValidationHandler_of_bind_ok L t ctx obj hb]
      rcases hs : L.inputValidation_Struct obj with _ | (errs | _)
      · have hval : (validate L obj).2 = .returned none := by simp [validate, hs]
        rw [hval]
        simp [Run.rejectedWith, hs]
      · cases errs with
        | nil =>
          have hval : (validate L obj).2 =
              .panicked "runtime error: index out of range [0] with length 0" := by
            simp [validate, hs]
          rw [hval]
          simp [Run.rejectedWith, hs]
        | cons v rest =>
          have hval : ∃ msg, (validate L obj).2 = .returned (some msg) := by
            simp [validate, hs]
          obtain ⟨msg, hmsg⟩ := hval
          rw [hmsg]
          simp [Run.rejectedWith, hs]
      · have hval : (validate L obj).2 =
            .panicked "interface conversion: error is not validator.ValidationErrors" := by
          simp [validate, hs]
        rw [hval]
        simp [Run.rejectedWith, hs]
    · rw [ValidationHandler_of_bind_error L t ctx obj err hb]
      simp [Run.rejectedWith]
    · rw [ValidationHandler_of_bind_panic L t ctx obj msg hb]
      simp [Run.rejectedWith]

/-- C6 at the specification's end-to-end example: the body with `name` "Ann" and `email`
"ann@x.com" passes the example rules; the record is stored and the next handler runs. -/
theorem ValidationHandler_outcome_witness :
    ValidationHandler (goLib userEngine) (some (.struct userSchema))
        (.json (.object [("name", .string "Ann"), ("email", .string "ann@x.com")])) =
      ⟨[.validatorStruct (.ptrToStruct userSchema [.string "Ann", .string "ann@x.com"]),
        .ctxSet "payload" (.ptrToStruct userSchema [.string "Ann", .string "ann@x.com"]),
        .ctxNext], none⟩ :=
  ((ValidationHandler_outcome (goLib userEngine) (.struct userSchema)
    (.json (.object [("name", .string "Ann"), ("email", .string "ann@x.com")]))).1
    (.ptrToStruct userSchema [.string "Ann", .string "ann@x.com"]) rfl).2 (by decide)

/-! ## The phone rule as coded -/

/-- Every character of a word of the phone pattern is a decimal digit or a backslash. -/
theorem phone_chars {w : List Char} (h : Regex.Matches phoneRegex w) :
    ∀ c ∈ w, c.isDigit = true ∨ c = '\\' := by
  obtain ⟨p, d, hw, hp, _, hd⟩ := (matches_phoneRegex_iff w).mp h
  intro c hc
  rw [hw] at hc
  rcases List.mem_append.mp hc with hc | hc
  · rcases hp with hp | ⟨b, _, hb, hp⟩ | hp | hp
    · rw [hp] at hc
      simp only [List.mem_singleton] at hc
      exact Or.inl (hc ▸ by decide)
    · rw [hp] at hc
      rcases List.mem_append.mp hc with hc | hc
      · exact Or.inr (hb c hc)
      · simp only [List.mem_cons, List.mem_singleton, List.not_mem_nil, or_false] at hc
        rcases hc with rfl | rfl <;> exact Or.inl (by decide)
    · rw [hp] at hc
      simp only [List.mem_cons, List.mem_singleton, List.not_mem_nil, or_false] at hc
      rcases hc with rfl | rfl | rfl <;> exact Or.inl (by decide)
    · rw [hp] at hc
      simp only [List.mem_cons, List.mem_singleton, List.not_mem_nil, or_false] at hc
      rcases hc with rfl | rfl <;> exact Or.inl (by decide)
  · exact Or.inl ((isDigit_iff_range c).mpr (hd c hc))

/-- A word of the phone pattern starts with a zero, a six or a backslash. -/
theorem phone_head {w : List Char} (h : Regex.Matches phoneRegex w) :
    w.head? = some '0' ∨ w.head? = some '6' ∨ w.head? = some '\\' := by
  obtain ⟨p, d, hw, hp, _, _⟩ := (matches_phoneRegex_iff w).mp h
  rcases hp with hp | ⟨b, hb1, hb2, hp⟩ | hp | hp
  · rw [hw, hp]; exact Or.inl rfl
  · cases b with
    | nil => exact absurd rfl hb1
    | cons a t =>
      have ha : a = '\\' := hb2 a (List.mem_cons_self a t)
      rw [hw, hp, ha]
      exact Or.inr (Or.inr rfl)
  · rw [hw, hp]; exact Or.inl rfl
  · rw [hw, hp]; exact Or.inr (Or.inl rfl)

/-- For an accepted string the byte length is the number of characters. -/
theorem utf8ByteSize_eq_length_of_phone (s : String) (h : Regex.Matches phoneRegex s.data) :
    s.utf8ByteSize = s.length := by
  cases s with
  | mk cs =>
    apply utf8ByteSize_go_eq_length cs
    intro c hc
    rcases phone_chars h c hc with hd | rfl
    · exact utf8Size_of_isDigit hd
    · decide

/-- C12 on the code: the phone rule rejects every string that starts with `+62`,
whatever follows; in particular `+628123456789`, which the claim wants accepted. -/
theorem phoneValidation_plus62_rejected (d : String) : phoneValidation ("+62" ++ d) = false := by
  cases hv : phoneValidation ("+62" ++ d) with
  | false => rfl
  | true =>
    exfalso
    have hm := ((phoneValidation_eq_true_iff _).mp hv).2.2
    have hh := phone_head hm
    have hplus : ("+62" ++ d).data.head? = some '+' := by
      rw [String.data_append]; rfl
    rw [hplus] at hh
    rcases hh with hh | hh | hh <;> exact absurd hh (by decide)

/-- C13: the phone rule rejects every string whose length in characters is less than 10
or greater than 13, whatever its content. -/
theorem phoneValidation_length_bounds (s : String) (h : s.length < 10 ∨ 13 < s.length) :
    phoneValidation s = false := by
  cases hv : phoneValidation s with
  | false => rfl
  | true =>
    exfalso
    obtain ⟨h1, h2, hm⟩ := (phoneValidation_eq_true_iff s).mp hv
    rw [utf8ByteSize_eq_length_of_phone s hm] at h1 h2
    omega

/-- C13 at a nine-character input with a valid code. -/
theorem phoneValidation_length_bounds_witness : phoneValidation "081234567" = false :=
  phoneValidation_length_bounds "081234567" (Or.inl (by decide))

/-- C14: the boundary table of the specification: `0812345678` is valid, `081234567`
is invalid, `+6281234567890` is invalid, `62812345678` is valid and `abc1234567` is
invalid. -/
theorem phoneValidation_boundary_table :
    phoneValidation "0812345678" = true ∧ phoneValidation "081234567" = false ∧
      phoneValidation "+6281234567890" = false ∧ phoneValidation "62812345678" = true ∧
      phoneValidation "abc1234567" = false := by
  decide

/-- C18: the phone rule as coded accepts a string exactly when its byte length is
between 10 and 13 and it is a zero followed by one or more digits, or `62` followed by
one or more digits, or one or more backslashes followed by `62` and one or more digits;
hence every accepted string starts with `0`, `6` or a backslash and contains no `+`. -/
theorem phoneValidation_as_coded (s : String) :
    (phoneValidation s = true ↔
      (10 ≤ s.utf8ByteSize ∧ s.utf8ByteSize ≤ 13 ∧
        ∃ d, d ≠ [] ∧ (∀ c ∈ d, c.isDigit = true) ∧
          (s.data = '0' :: d ∨ s.data = '6' :: '2' :: d ∨
            ∃ b, b ≠ [] ∧ (∀ c ∈ b, c = '\\') ∧ s.data = b ++ '6' :: '2' :: d))) ∧
    (phoneValidation s = true →
      (s.data.head? = some '0' ∨ s.data.head? = some '6' ∨ s.data.head? = some '\\') ∧
        '+' ∉ s.data) := by
  constructor
  · rw [phoneValidation_eq_true_iff, matches_phoneRegex_iff]
    constructor
    · rintro ⟨h1, h2, p, d, hs, hp, hne, hd⟩
      have hd' : ∀ c ∈ d, c.isDigit = true := fun c hc => (isDigit_iff_range c).mpr (hd c hc)
      refine ⟨h1, h2, ?_⟩
      rcases hp with hp | ⟨b, hb1, hb2, hp⟩ | hp | hp
      · exact ⟨d, hne, hd', Or.inl (by rw [hs, hp]; rfl)⟩
      · exact ⟨d, hne, hd', Or.inr (Or.inr ⟨b, hb1, hb2, by rw [hs, hp]; simp⟩)⟩
      · refine ⟨'6' :: '2' :: d, by simp, ?_, Or.inl (by rw [hs, hp]; rfl)⟩
        intro c hc
        simp only [List.mem_cons] at hc
        rcases hc with rfl | rfl | hc
        · decide
        · decide
        · exact hd' c hc
      · exact ⟨d, hne, hd', Or.inr (Or.inl (by rw [hs, hp]; rfl))⟩
    · rintro ⟨h1, h2, d, hne, hd, hs⟩
      have hd' : ∀ c ∈ d, '0' ≤ c ∧ c ≤ '9' := fun c hc => (isDigit_iff_range c).mp (hd c hc)
      refine ⟨h1, h2, ?_⟩
      rcases hs with hs | hs | ⟨b, hb1, hb2, hs⟩
      · exact ⟨['0'], d, by rw [hs]; rfl, Or.inl rfl, hne, hd'⟩
      · exact ⟨['6', '2'], d, by rw [hs]; rfl, Or.inr (Or.inr (Or.inr rfl)), hne, hd'⟩
      · exact ⟨b ++ ['6', '2'], d, by rw [hs]; simp, Or.inr (Or.inl ⟨b, hb1, hb2, rfl⟩), hne, hd'⟩
  · intro hv
    have hm := ((phoneValidation_eq_true_iff s).mp hv).2.2
    refine ⟨phone_head hm, fun hplus => ?_⟩
    rcases phone_chars hm '+' hplus with h | h
    · exact absurd h (by decide)
    · exact absurd h (by decide)

/-- C18 at an input of the backslash alternative. -/
theorem phoneValidation_as_coded_witness :
    ("\\628123456789".data.head? = some '0' ∨ "\\628123456789".data.head? = some '6' ∨
        "\\628123456789".data.head? = some '\\') ∧ '+' ∉ "\\628123456789".data :=
  (phoneValidation_as_coded "\\628123456789").2 (by decide)

/-! ## The decoder: the body, atomicity and the tag -/

/-- A body that is neither an object nor `null` does not bind. -/
theorem ShouldBindJSON_error_of_not_object (c : Body)
    (hobj : ∀ members, c ≠ .json (.object members)) (hnull : c ≠ .json .null) :
    ∃ err, ShouldBindJSON c = .error err := by
  cases c with
  | invalid err => exact ⟨err, rfl⟩
  | json v =>
    cases v with
    | null => exact absurd rfl hnull
    | object members => exact absurd rfl (hobj members)
    | bool b => exact ⟨_, rfl⟩
    | number n e => exact ⟨_, rfl⟩
    | string s => exact ⟨_, rfl⟩
    | array items => exact ⟨_, rfl⟩

/-- C11 (as stated) fails: for the body `null` the decoder succeeds and leaves every
field of the record at its zero value. -/
theorem BindJSONCaseSensitive_null_body :
    BindJSONCaseSensitive (goLib userEngine) (.json .null)
        (reflect_New (goLib userEngine) (.struct userSchema)) =
      (.ptrToStruct userSchema [.string "", .string ""], .returned none) := by
  decide

/-- C11 (amended): (1) for every request body from which the JSON decoder cannot read a
first value (syntax error or truncation in it, empty body) or whose first value is an
array, a string, a number or a boolean, the decoder returns an error and leaves the
target as it was, and the handler rejects with that error without invoking the rule
engine, storing a payload or calling `ctx.Next()`; (2) a body whose first value is
`null` is not rejected by the decoder: for every struct type it is decoded like an empty
object, with every field at its zero value. -/
theorem BindJSONCaseSensitive_malformed_body {T V : Type} (L : Lib T V)
    (typ : List (StructField T)) (old : List V) :
    (∀ c : Body, (∀ members, c ≠ .json (.object members)) → c ≠ .json .null →
      ∃ err, ShouldBindJSON c = .error err ∧
        BindJSONCaseSensitive L c (.ptrToStruct typ old) =
          (.ptrToStruct typ old, .returned (some err)) ∧
        ValidationHandler L (some (.struct typ)) c =
          ⟨[.logPrintln ("Failed to bind JSON: " ++ err), .ErrorResponse 400 err], none⟩) ∧
    (BindJSONCaseSensitive L (.json .null) (.ptrToStruct typ old) =
        (.ptrToStruct typ (typ.map fun f => L.zeroValue f.Typ), .returned none) ∧
      BindJSONCaseSensitive L (.json .null) (.ptrToStruct typ old) =
        BindJSONCaseSensitive L (.json (.object [])) (.ptrToStruct typ old)) := by
  have hempty : ∀ c : Body, ShouldBindJSON c = .ok [] →
      BindJSONCaseSensitive L c (.ptrToStruct typ old) =
        (.ptrToStruct typ (typ.map fun f => L.zeroValue f.Typ), .returned none) := by
    intro c hraw
    apply BindJSONCaseSensitive_of_done L c typ old [] _ hraw
    rw [decodeFields_done_iff]
    apply forall₂_of_getElem? _ _ (by simp)
    intro k f v hf hv
    rw [List.getElem?_map, hf] at hv
    simp only [Option.map_some', Option.some.injEq] at hv
    rw [← hv]
    exact decodeField_absent L [] f (Or.inr rfl)
  refine ⟨?_, hempty _ rfl, ?_⟩
  · intro c hobj hnull
    obtain ⟨err, herr⟩ := ShouldBindJSON_error_of_not_object c hobj hnull
    have hb : ∀ old' : List V, BindJSONCaseSensitive L c (.ptrToStruct typ old') =
        (.ptrToStruct typ old', .returned (some err)) := by
      intro old'
      rw [BindJSONCaseSensitive_ptrToStruct, herr]
    exact ⟨err, herr, hb old, ValidationHandler_of_bind_error L (.struct typ) c _ err (hb _)⟩
  · rw [hempty (.json .null) rfl, hempty (.json (.object [])) rfl]

/-- C11 (amended) at a top-level array. -/
theorem BindJSONCaseSensitive_malformed_body_witness :
    ∃ err, ShouldBindJSON (.json (.array [.string "Ann"])) = .error err ∧
      BindJSONCaseSensitive (goLib userEngine) (.json (.array [.string "Ann"]))
          (.ptrToStruct userSchema [.string "Bob", .string "bob@x.com"]) =
        (.ptrToStruct userSchema [.string "Bob", .string "bob@x.com"], .returned (some err)) ∧
      ValidationHandler (goLib userEngine) (some (.struct userSchema))
          (.json (.array [.string "Ann"])) =
        ⟨[.logPrintln ("Failed to bind JSON: " ++ err), .ErrorResponse 400 err], none⟩ :=
  (BindJSONCaseSensitive_malformed_body (goLib userEngine) userSchema
    [.string "Bob", .string "bob@x.com"]).1 (.json (.array [.string "Ann"]))
    (fun _ h => by cases h) (fun h => by cases h)

/-- C17: the decoder is atomic on failure.  Whenever it returns an error (or panics) the
caller's object is exactly what it was before the call; the object is overwritten only
when the call returns no error, the target being a pointer to a struct and every field
of the struct type having been decoded. -/
theorem BindJSONCaseSensitive_atomic {T V : Type} (L : Lib T V) (c : Body) (obj : Obj T V) :
    ((BindJSONCaseSensitive L c obj).2 ≠ .returned none →
      (BindJSONCaseSensitive L c obj).1 = obj) ∧
    ((BindJSONCaseSensitive L c obj).1 ≠ obj →
      (BindJSONCaseSensitive L c obj).2 = .returned none ∧
      ∃ typ old raw vs, obj = .ptrToStruct typ old ∧ ShouldBindJSON c = .ok raw ∧
        List.Forall₂ (fun f v => decodeField L raw f = .value v) typ vs ∧
        (BindJSONCaseSensitive L c obj).1 = .ptrToStruct typ vs) := by
  cases obj with
  | nilIface => exact ⟨fun _ => rfl, fun h => absurd rfl h⟩
  | other => exact ⟨fun _ => rfl, fun h => absurd rfl h⟩
  | nilPtrToStruct typ =>
    have hfix : (BindJSONCaseSensitive L c (.nilPtrToStruct typ)).1 = .nilPtrToStruct typ := by
      rw [BindJSONCaseSensitive]
      cases ShouldBindJSON c with
      | error err => rfl
      | ok raw =>
        simp only
        cases bindLoop L raw typ 0 (typ.map fun f => L.zeroValue f.Typ) <;> rfl
    exact ⟨fun _ => hfix, fun h => absurd hfix h⟩
  | ptrToStruct typ old =>
    cases hraw : ShouldBindJSON c with
    | error err =>
      have hb : BindJSONCaseSensitive L c (.ptrToStruct typ old) =
          (.ptrToStruct typ old, .returned (some err)) := by
        rw [BindJSONCaseSensitive_ptrToStruct, hraw]
      rw [hb]
      exact ⟨fun _ => rfl, fun h => absurd rfl h⟩
    | ok raw =>
      cases hd : decodeFields L raw typ with
      | returned err =>
        rw [BindJSONCaseSensitive_of_returned L c typ old raw err hraw hd]
        exact ⟨fun _ => rfl, fun h => absurd rfl h⟩
      | panicked msg =>
        rw [BindJSONCaseSensitive_of_panicked L c typ old raw msg hraw hd]
        exact ⟨fun _ => rfl, fun h => absurd rfl h⟩
      | done vs =>
        rw [BindJSONCaseSensitive_of_done L c typ old raw vs hraw hd]
        exact ⟨fun h => absurd rfl h, fun _ =>
          ⟨rfl, typ, old, raw, vs, rfl, rfl, (decodeFields_done_iff L raw typ vs).mp hd, rfl⟩⟩

/-- C17 at a concrete input: `name` converts, then `age` does not; the caller's record
keeps the values it held. -/
theorem BindJSONCaseSensitive_atomic_witness :
    (BindJSONCaseSensitive (goLib userEngine)
        (.json (.object [("name", .string "Ann"), ("age", .string "old")]))
        (.ptrToStruct memberSchema [.string "Bob", .int 41])).1 =
      .ptrToStruct memberSchema [.string "Bob", .int 41] :=
  (BindJSONCaseSensitive_atomic (goLib userEngine)
    (.json (.object [("name", .string "Ann"), ("age", .string "old")]))
    (.ptrToStruct memberSchema [.string "Bob", .int 41])).1 (by decide)

/-- C19: the lookup key of a field is its entire json tag, options included.  For a
field (index `k`) of the struct type, when no other field stops the loop: if the parsed
body has no key equal to the whole tag (it may well have the tag's name part, as `email`
for the tag `email,omitempty`), the decoder succeeds with the field at its zero value;
if the tag is not empty, the field exported, and the body maps the whole tag to a value
that converts, the field holds the converted value; and a field with the empty tag is
skipped, whatever the body maps the empty key to. -/
theorem BindJSONCaseSensitive_tag_verbatim {T V : Type} (L : Lib T V) (c : Body)
    (typ : List (StructField T)) (old : List V) (raw : RawMap) (k : Nat) (f : StructField T)
    (hraw : ShouldBindJSON c = .ok raw) (hf : typ[k]? = some f)
    (hothers : ∀ j g, j ≠ k → typ[j]? = some g → ∃ w, decodeField L raw g = .value w) :
    (raw.get f.jsonTag = none →
      ∃ value, BindJSONCaseSensitive L c (.ptrToStruct typ old) =
          (.ptrToStruct typ value, .returned none) ∧
        value[k]? = some (L.zeroValue f.Typ)) ∧
    (∀ rawValue v, f.jsonTag ≠ "" → f.PkgPath = "" → raw.get f.jsonTag = some rawValue →
      L.json_Unmarshal rawValue f.Typ (L.zeroValue f.Typ) = .ok v →
      ∃ value, BindJSONCaseSensitive L c (.ptrToStruct typ old) =
          (.ptrToStruct typ value, .returned none) ∧
        value[k]? = some v) ∧
    (f.jsonTag = "" →
      ∃ value, BindJSONCaseSensitive L c (.ptrToStruct typ old) =
          (.ptrToStruct typ value, .returned none) ∧
        value[k]? = some (L.zeroValue f.Typ)) := by
  have main : ∀ v, decodeField L raw f = .value v →
      ∃ value, BindJSONCaseSensitive L c (.ptrToStruct typ old) =
          (.ptrToStruct typ value, .returned none) ∧ value[k]? = some v := by
    intro v hdf
    have hall : ∀ g ∈ typ, ∃ w, decodeField L raw g = .value w := by
      intro g hg
      obtain ⟨j, hj⟩ := List.mem_iff_getElem?.mp hg
      by_cases hjk : j = k
      · subst hjk
        rw [hf] at hj
        cases hj
        exact ⟨_, hdf⟩
      · exact hothers j g hjk hj
    obtain ⟨vs, hvs⟩ := decodeFields_total L raw typ hall
    refine ⟨vs, BindJSONCaseSensitive_of_done L c typ old raw vs hraw hvs, ?_⟩
    obtain ⟨w, hw, hd⟩ := decodeFields_done_getElem? L raw typ vs hvs k f hf
    rw [hdf] at hd
    cases hd
    exact hw
  refine ⟨fun habs => main _ (decodeField_absent L raw f (Or.inr habs)), ?_,
    fun htag => main _ (decodeField_absent L raw f (Or.inl htag))⟩
  intro rawValue v htag hpkg hget hconv
  apply main
  rw [decodeField_present L raw f rawValue htag hget hpkg, hconv]

/-- C19 at the claim's example: the field is tagged `email,omitempty`, the body has the
key `email`; the field stays empty. -/
theorem BindJSONCaseSensitive_tag_verbatim_witness :
    ∃ value, BindJSONCaseSensitive (goLib userEngine)
        (.json (.object [("email", .string "ann@x.com")])) (.ptrToStruct optionSchema []) =
          (.ptrToStruct optionSchema value, .returned none) ∧
      value[0]? = some (goZero .string) :=
  (BindJSONCaseSensitive_tag_verbatim (goLib userEngine)
    (.json (.object [("email", .string "ann@x.com")])) optionSchema []
    [("email", .string "ann@x.com")] 0 ⟨"Email", "", .string, "email,omitempty"⟩ rfl rfl
    (by
      intro j g hj hg
      match j, hj, hg with
      | 0, hj, _ => exact absurd rfl hj
      | n + 1, _, hg => simp [optionSchema] at hg)).1 rfl

/-! ## The handler: end to end, and faults -/

/-- C15: for the schema with `Name` (`name`) and `Email` (`email`) and a rule engine
that reports the `required` violation of the empty `Name` field first, the body with
only `email` set to "ann@x.com" is decoded with `Name` left empty and the handler
rejects with exactly the message "name is required". -/
theorem ValidationHandler_missing_name (engine : Obj GoType GoValue → Option ValidatorError)
    (p : String) (rest : List FieldError)
    (hengine : engine (.ptrToStruct userSchema [.string "", .string "ann@x.com"]) =
      some (.ValidationErrors (⟨"Name", "required", p⟩ :: rest))) :
    BindJSONCaseSensitive (goLib engine) (.json (.object [("email", .string "ann@x.com")]))
        (reflect_New (goLib engine) (.struct userSchema)) =
      (.ptrToStruct userSchema [.string "", .string "ann@x.com"], .returned none) ∧
    ValidationHandler (goLib engine) (some (.struct userSchema))
        (.json (.object [("email", .string "ann@x.com")])) =
      ⟨[.validatorStruct (.ptrToStruct userSchema [.string "", .string "ann@x.com"]),
        .logPrintln "Validation error: name is required",
        .ErrorResponse 400 "name is required"], none⟩ := by
  have hb : BindJSONCaseSensitive (goLib engine)
      (.json (.object [("email", .string "ann@x.com")]))
      (reflect_New (goLib engine) (.struct userSchema)) =
      (.ptrToStruct userSchema [.string "", .string "ann@x.com"], .returned none) := rfl
  refine ⟨hb, ?_⟩
  rw [ValidationHandler_of_bind_ok (goLib engine) (.struct userSchema) _ _ hb]
  have hlow : asciiToLower "Name" ++ " is required" = "name is required" := by decide
  have hval : (validate (goLib engine)
      (.ptrToStruct userSchema [.string "", .string "ann@x.com"])).2 =
      .returned (some "name is required") := by
    simp only [validate, goLib, hengine]
    rw [← hlow]
    rfl
  rw [hval]
  rfl

/-- C15 with the example rule engine. -/
theorem ValidationHandler_missing_name_witness :
    BindJSONCaseSensitive (goLib userEngine) (.json (.object [("email", .string "ann@x.com")]))
        (reflect_New (goLib userEngine) (.struct userSchema)) =
      (.ptrToStruct userSchema [.string "", .string "ann@x.com"], .returned none) ∧
    ValidationHandler (goLib userEngine) (some (.struct userSchema))
        (.json (.object [("email", .string "ann@x.com")])) =
      ⟨[.validatorStruct (.ptrToStruct userSchema [.string "", .string "ann@x.com"]),
        .logPrintln "Validation error: name is required",
        .ErrorResponse 400 "name is required"], none⟩ :=
  ValidationHandler_missing_name userEngine "" [] rfl

/-- When every field with a json tag is exported, the loop does not panic. -/
theorem decodeFields_not_panicked_of_tagged {T V : Type} (L : Lib T V) (raw : RawMap) :
    ∀ (fs : List (StructField T)), (∀ f ∈ fs, f.jsonTag ≠ "" → f.PkgPath = "") →
      ∀ msg, decodeFields L raw fs ≠ .panicked msg
  | [], _, msg => by simp [decodeFields]
  | field :: rest, h, msg => by
    have ih := decodeFields_not_panicked_of_tagged L raw rest
      (fun f hf => h f (List.mem_cons_of_mem _ hf))
    rw [decodeFields]
    cases hf : decodeField L raw field with
    | returned err => simp
    | panicked m =>
      exfalso
      unfold decodeField at hf
      by_cases htag : field.jsonTag = ""
      · rw [if_pos htag] at hf; cases hf
      · rw [if_neg htag] at hf
        have hpkg : field.PkgPath = "" := h field (List.mem_cons_self _ _) htag
        cases hget : raw.get field.jsonTag with
        | none => rw [hget] at hf; cases hf
        | some rawValue =>
          rw [hget] at hf
          simp only [hpkg, ne_eq, not_true_eq_false, if_false] at hf
          cases hu : L.json_Unmarshal rawValue field.Typ (L.zeroValue field.Typ) <;>
            rw [hu] at hf <;> cases hf
    | value v =>
      simp only
      cases hr : decodeFields L raw rest with
      | done ws => simp
      | returned err => simp
      | panicked m => exact absurd hr (ih m)

/-- C16 (as stated) fails: the handler ends in a panic, with no response sent, for a
nil schema, for a struct type with an unexported tagged field whose key is in the body,
and when the rule engine returns an error that is not a violation list. -/
theorem ValidationHandler_faults :
    ValidationHandler (goLib userEngine) none (.json (.object [])) =
        ⟨[], some "reflect: New(nil)"⟩ ∧
      ValidationHandler (goLib userEngine) (some (.struct hiddenSchema))
          (.json (.object [("name", .string "Ann")])) =
        ⟨[], some "reflect.Value.Interface: cannot return value obtained from unexported field or method"⟩ ∧
      ValidationHandler (goLib fun _ => some .InvalidValidationError) (some (.struct userSchema))
          (.json (.object [])) =
        ⟨[.validatorStruct (.ptrToStruct userSchema [.string "", .string ""])],
          some "interface conversion: error is not validator.ValidationErrors"⟩ := by
  decide

/-- C16 (amended): for every schema that is not nil and whose fields with a json tag
are exported, every request body, and every rule engine that returns either no error
or a non-empty violation list for the decoded record, the handler ends without a panic
in exactly one of two
ways: it stores the payload and calls `ctx.Next()` without sending an error response,
or it sends an error response without storing a payload or calling `ctx.Next()`. -/
theorem ValidationHandler_no_fault {T V : Type} (L : Lib T V) (t : RType T) (ctx : Body)
    (hexp : ∀ fields, t = .struct fields → ∀ f ∈ fields, f.jsonTag ≠ "" → f.PkgPath = "")
    (hengine : ∀ payload,
      BindJSONCaseSensitive L ctx (reflect_New L t) = (payload, .returned none) →
      L.inputValidation_Struct payload = none ∨
        ∃ v rest, L.inputValidation_Struct payload = some (.ValidationErrors (v :: rest))) :
    (ValidationHandler L (some t) ctx).panicked = none ∧
      (((∃ payload, (ValidationHandler L (some t) ctx).events =
            [.validatorStruct payload, .ctxSet "payload" payload, .ctxNext]) ∧
          ¬ ∃ msg, (ValidationHandler L (some t) ctx).rejectedWith msg) ∨
        ((∃ msg, (ValidationHandler L (some t) ctx).rejectedWith msg) ∧
          ¬ (ValidationHandler L (some t) ctx).payloadStored ∧
          ¬ (ValidationHandler L (some t) ctx).nextRun)) := by
  rcases hb : BindJSONCaseSensitive L ctx (reflect_New L t) with ⟨obj, ex⟩
  rcases ex with (_ | err) | msg
  · rw [ValidationHandler_of_bind_ok L t ctx obj hb]
    rcases hengine obj hb with hs | ⟨v, rest, hs⟩
    · have hval : (validate L obj).2 = .returned none := by simp [validate, hs]
      rw [hval]
      refine ⟨rfl, Or.inl ⟨⟨obj, rfl⟩, ?_⟩⟩
      simp [Run.rejectedWith]
    · have hval : ∃ msg, (validate L obj).2 = .returned (some msg) := by
        simp [validate, hs]
      obtain ⟨msg, hmsg⟩ := hval
      rw [hmsg]
      refine ⟨rfl, Or.inr ⟨⟨msg, ?_⟩, ?_, ?_⟩⟩
      · simp [Run.rejectedWith]
      · simp [Run.payloadStored]
      · simp [Run.nextRun]
  · rw [ValidationHandler_of_bind_error L t ctx obj err hb]
    refine ⟨rfl, Or.inr ⟨⟨err, ?_⟩, ?_, ?_⟩⟩
    · simp [Run.rejectedWith]
    · simp [Run.payloadStored]
    · simp [Run.nextRun]
  · exfalso
    cases t with
    | nonStruct => simp [reflect_New, BindJSONCaseSensitive] at hb
    | struct fields =>
      rw [reflect_New, BindJSONCaseSensitive_ptrToStruct] at hb
      cases hraw : ShouldBindJSON ctx with
      | error e => rw [hraw] at hb; simp at hb
      | ok raw =>
        rw [hraw] at hb
        simp only at hb
        cases hd : decodeFields L raw fields with
        | done vs => rw [hd] at hb; simp at hb
        | returned e => rw [hd] at hb; simp at hb
        | panicked m =>
          exact decodeFields_not_panicked_of_tagged L raw fields (hexp fields rfl) m hd

/-- C16 (amended) at the specification's accepted example. -/
theorem ValidationHandler_no_fault_witness :
    (ValidationHandler (goLib userEngine) (some (.struct userSchema))
        (.json (.object [("name", .string "Ann"), ("email", .string "ann@x.com")]))).panicked =
        none ∧
      (((∃ payload, (ValidationHandler (goLib userEngine) (some (.struct userSchema))
            (.json (.object [("name", .string "Ann"), ("email", .string "ann@x.com")]))).events =
            [.validatorStruct payload, .ctxSet "payload" payload, .ctxNext]) ∧
          ¬ ∃ msg, (ValidationHandler (goLib userEngine) (some (.struct userSchema))
            (.json (.object [("name", .string "Ann"),
              ("email", .string "ann@x.com")]))).rejectedWith msg) ∨
        ((∃ msg, (ValidationHandler (goLib userEngine) (some (.struct userSchema))
            (.json (.object [("name", .string "Ann"),
              ("email", .string "ann@x.com")]))).rejectedWith msg) ∧
          ¬ (ValidationHandler (goLib userEngine) (some (.struct userSchema))
            (.json (.object [("name", .string "Ann"),
              ("email", .string "ann@x.com")]))).payloadStored ∧
          ¬ (ValidationHandler (goLib userEngine) (some (.struct userSchema))
            (.json (.object [("name", .string "Ann"),
              ("email", .string "ann@x.com")]))).nextRun)) :=
  ValidationHandler_no_fault (goLib userEngine) (.struct userSchema)
    (.json (.object [("name", .string "Ann"), ("email", .string "ann@x.com")]))
    (fun fields h f hf _ => by
      cases h
      simp only [userSchema, List.mem_cons, List.mem_singleton, List.not_mem_nil,
        or_false] at hf
      rcases hf with rfl | rfl <;> rfl)
    (fun payload h => by
      have hp : Obj.ptrToStruct userSchema [GoValue.string "Ann", GoValue.string "ann@x.com"] =
          payload := congrArg Prod.fst h
      subst hp
      exact Or.inl rfl)

end Middlewares
